import Mathlib

/-
Verification of the SYSTEM session orchestrator
(`src/cloudflare-agent/src/server.ts`).

The TypeScript source is shallowly embedded as executable Lean
definitions.  Conventions used throughout:

* JS strings are modelled as Lean `String`s; character-level processing
  works on `List Char`.  `charCodeAt` sequences are modelled as the
  sequence of code points (`Char.toNat`), which agrees with UTF-16 code
  units on the inputs exercised here.
* JS timestamps (`Date.now()`, epoch milliseconds) are modelled as `Int`.
* Platform builtins that are not part of the repository's code
  (`JSON.parse`, generic `new Date(string)` parsing, the durable-object
  `schedule` id generator, and the outbound network calls) are supplied
  as oracle parameters in the `ExtWorld` structure, so every theorem
  quantifies over their behaviour.
* JS `Math.max(0, a - b)` on naturals is written with truncated `Nat`
  subtraction, which is definitionally the same function.
-/

-- ═══════════════════════════════════════════════════════════════
-- Generic string helpers (JS semantics on the ASCII range)
-- ═══════════════════════════════════════════════════════════════

/-- `String.prototype.toLowerCase` restricted to the ASCII range. -/
def lowerStr (s : String) : String :=
  String.mk (s.data.map Char.toLower)

/-- `String.prototype.trim` on a character list. -/
def trimChars (cs : List Char) : List Char :=
  ((cs.dropWhile Char.isWhitespace).reverse.dropWhile Char.isWhitespace).reverse

/-- `String.prototype.trim`: drop whitespace from both ends. -/
def jsTrim (s : String) : String :=
  String.mk (trimChars s.data)

/-- The apostrophe character, U+0027. -/
def apos : String := String.mk [Char.ofNat 39]

/-- Code-unit sequence of a string (see the module header note). -/
def codeUnits (s : String) : List Nat := s.data.map Char.toNat

-- ═══════════════════════════════════════════════════════════════
-- JSON values (results of the platform's `JSON.parse`)
-- ═══════════════════════════════════════════════════════════════

/-- JSON value, as returned by the `JSON.parse` oracle. -/
inductive Json where
  | null
  | bool (b : Bool)
  | num (n : Int)
  | str (s : String)
  | arr (elems : List Json)
  | obj (fields : List (String × Json))

/-- JS truthiness of a JSON value (`NaN` never arises here). -/
def Json.truthy : Json → Bool
  | .null => false
  | .bool b => b
  | .num n => n != 0
  | .str s => s != ""
  | .arr _ => true
  | .obj _ => true

/-- Argument objects (`Record<string, unknown>` in the source). -/
abbrev Args := List (String × Json)

/-- JS property access `j[k]`; `undefined` is `none`. -/
def jGet (j : Json) (k : String) : Option Json :=
  match j with
  | .obj fields => List.lookup k fields
  | _ => none

/-- Truthiness of a possibly-`undefined` JS value. -/
def truthyOpt : Option Json → Bool
  | none => false
  | some j => j.truthy

/-- String projection with a JS-flavoured default (TS casts the field to
`string`; non-string values never occur on the paths the claims
exercise). -/
def jStrD (j : Option Json) (d : String) : String :=
  match j with
  | some (.str s) => s
  | _ => d

/-- Object-field projection used for `action.args`. -/
def jArgsD (j : Option Json) : Args :=
  match j with
  | some (.obj fields) => fields
  | _ => []

/-- JS object spread with a single overridden key, `{ ...fs, k: v }`:
an existing key keeps its position, a fresh key is appended. -/
def setField (fs : Args) (k : String) (v : Json) : Args :=
  if fs.any (fun p => p.1 == k) then
    fs.map (fun p => cond (p.1 == k) (k, v) p)
  else
    fs ++ [(k, v)]

-- ═══════════════════════════════════════════════════════════════
-- Security helper (server.ts lines 85-92)
-- ═══════════════════════════════════════════════════════════════

/-- `timingSafeEqual`: length check, then OR-accumulated XOR of the
code units, compared against zero (server.ts 85-92). -/
def timingSafeEqual (a b : List Nat) : Bool :=
  if a.length != b.length then false
  else ((a.zip b).foldl (fun m p => m ||| (p.1 ^^^ p.2)) 0) == 0

-- ═══════════════════════════════════════════════════════════════
-- Data model (server.ts lines 23-75, 99-104)
-- ═══════════════════════════════════════════════════════════════

/-- History entry (`Message` interface, server.ts 23-26). -/
structure Message where
  role : String
  content : String
deriving Repr, DecidableEq

/-- Tool descriptor (`Tool` interface, server.ts 28-32); the schema is
only consumed by prompt building, which is abstracted away. -/
structure Tool where
  name : String
  description : String
deriving Repr, DecidableEq

/-- Pending sensitive action (`PendingAction`, server.ts 34-39). -/
structure PendingAction where
  tool : String
  args : Args
  context : String
  originalRequest : String

/-- Rate-limit window (`RateLimit`, server.ts 41-44). -/
structure RateLimit where
  count : Nat
  resetAt : Int
deriving Repr, DecidableEq

/-- Registry entry (`ScheduleRecord`, server.ts 46-54); `type` is the
Boolean `isRecurring` (true ↔ `"recurring"`). -/
structure ScheduleRecord where
  id : String
  whenExpr : String
  tool : String
  args : Args
  description : String
  createdAt : Int
  isRecurring : Bool

/-- Durable session state (`SystemState`, server.ts 56-63). The
`Option` type of `pendingAction` makes "at most one pending action per
session" structural. -/
structure SystemState where
  history : List Message
  preferences : List (String × String)
  lastActive : Int
  pendingAction : Option PendingAction
  rateLimit : Option RateLimit
  scheduleRegistry : List ScheduleRecord

/-- `initialState` (server.ts 99-104) at creation time `now`. -/
def initialState (now : Int) : SystemState :=
  { history := []
    preferences := []
    lastActive := now
    pendingAction := none
    rateLimit := none
    scheduleRegistry := [] }

/-- `POST /reset` body (server.ts 233-237):
`setState({ ...this.initialState, preferences: prefs, lastActive: Date.now() })`.
Fields absent from `initialState` (`pendingAction`, `rateLimit`) become
`undefined`. -/
def resetState (st : SystemState) (now : Int) : SystemState :=
  { history := []
    preferences := st.preferences
    lastActive := now
    pendingAction := none
    rateLimit := none
    scheduleRegistry := [] }

-- ═══════════════════════════════════════════════════════════════
-- Rate limiting (server.ts lines 106-107, 176-192)
-- ═══════════════════════════════════════════════════════════════

/-- `RATE_LIMIT` (server.ts 106). -/
def RATE_MAX : Nat := 60

/-- `RATE_WINDOW` (server.ts 107), in milliseconds. -/
def RATE_WINDOW : Int := 60 * 1000

/-- Result of `checkRateLimit` (server.ts 176). -/
structure RateResult where
  allowed : Bool
  remaining : Nat
  resetIn : Int
deriving Repr, DecidableEq

/-- `checkRateLimit` (server.ts 176-192), as a pure function of the
stored window and the current time; the caller stores the returned
window back into the state. `remaining` uses truncated subtraction for
`Math.max(0, RATE_LIMIT - count)`. -/
def checkRateLimit (rl0 : Option RateLimit) (now : Int) :
    RateLimit × RateResult :=
  let base : RateLimit :=
    match rl0 with
    | none => { count := 0, resetAt := now + RATE_WINDOW }
    | some rl =>
        if now ≥ rl.resetAt then { count := 0, resetAt := now + RATE_WINDOW }
        else rl
  let rl : RateLimit := { base with count := base.count + 1 }
  (rl,
   { allowed := decide (rl.count ≤ RATE_MAX)
     remaining := RATE_MAX - rl.count
     resetIn := max 0 (rl.resetAt - now) })

-- ═══════════════════════════════════════════════════════════════
-- Confirmation / cancellation grammar (server.ts lines 316-322)
-- ═══════════════════════════════════════════════════════════════

/-- Alternatives of the confirmation regex (server.ts 317). -/
def confirmWords : List String :=
  ["yes", "yeah", "yep", "yup", "sure", "ok", "okay", "do it", "send it",
   "confirm", "go ahead", "please", "y"]

/-- Alternatives of the cancellation regex (server.ts 321). -/
def cancelWords : List String :=
  ["no", "nope", "cancel", "stop", "don" ++ apos ++ "t", "nevermind",
   "never mind", "abort", "n"]

/-- The optional trailing punctuation `\.?!?` of both regexes. -/
def punctTails : List String := ["", ".", "!", ".!"]

/-- `isConfirmation` (server.ts 316-318): the trimmed message matches
`^(alt)\.?!?$` case-insensitively iff its lowercase form is some
alternative followed by one of the optional tails. -/
def isConfirmation (m : String) : Bool :=
  let t := lowerStr (jsTrim m)
  confirmWords.any (fun w => punctTails.any (fun sf => t == w ++ sf))

/-- `isCancellation` (server.ts 320-322). -/
def isCancellation (m : String) : Bool :=
  let t := lowerStr (jsTrim m)
  cancelWords.any (fun w => punctTails.any (fun sf => t == w ++ sf))

-- ═══════════════════════════════════════════════════════════════
-- Temporal expression parser (server.ts lines 511-553)
-- ═══════════════════════════════════════════════════════════════

/-- Match a literal pattern at the head of the input, returning the
rest; the literal part of a regex. -/
def litM : List Char → List Char → Option (List Char)
  | [], s => some s
  | _ :: _, [] => none
  | p :: ps, c :: cs => if c = p then litM ps cs else none

/-- Greedy `\s*`. -/
def dropSpaces (s : List Char) : List Char := s.dropWhile Char.isWhitespace

/-- `\s+` (greedy). -/
def spaces1 : List Char → Option (List Char)
  | [] => none
  | c :: cs => if c.isWhitespace then some (dropSpaces cs) else none

/-- Greedy `(\d+)`: the captured digits and the rest. -/
def digits1 (s : List Char) : Option (List Char × List Char) :=
  match s.takeWhile Char.isDigit with
  | [] => none
  | ds => some (ds, s.dropWhile Char.isDigit)

/-- Greedy `(\d{1,2})`. -/
def digits12 : List Char → Option (List Char × List Char)
  | [] => none
  | [c1] => if c1.isDigit then some ([c1], []) else none
  | c1 :: c2 :: r =>
    if c1.isDigit then
      if c2.isDigit then some ([c1, c2], r) else some ([c1], c2 :: r)
    else none

/-- `(\d{2})`: exactly two digits. -/
def digits2 : List Char → Option (List Char × List Char)
  | c1 :: c2 :: r =>
    if c1.isDigit && c2.isDigit then some ([c1, c2], r) else none
  | _ => none

/-- `parseInt` on an all-digit capture. -/
def digitsVal (ds : List Char) : Nat :=
  ds.foldl (fun a c => a * 10 + (c.toNat - 48)) 0

/-- `(am|pm)?` (greedy, `am` tried first): captured group and rest. -/
def ampmOpt (s : List Char) : Option String × List Char :=
  match litM ("am".data) s with
  | some r => (some "am", r)
  | none =>
    match litM ("pm".data) s with
    | some r => (some "pm", r)
    | none => (none, s)

/-- Tail `(\d{1,2})(?::(\d{2}))?\s*(am|pm)?` of the daily/weekday
regexes, matched at the current position: hour digits, optional minute
digits, optional meridiem. -/
def hourTail (s : List Char) :
    Option (List Char × Option (List Char) × Option String) :=
  match digits12 s with
  | none => none
  | some (h, s5) =>
    let colonPart : Option (List Char × List Char) :=
      match s5 with
      | c :: rest => if c = ':' then digits2 rest else none
      | [] => none
    let next : Option (List Char) × List Char :=
      match colonPart with
      | some (mm, r) => (some mm, r)
      | none => (none, s5)
    let s7 := dropSpaces next.2
    some (h, next.1, (ampmOpt s7).1)

/-- `every\s*WORD\s*(?:at\s*)?` followed by `hourTail`, matched at the
current position (the daily regex at server.ts 520 with WORD = `day`,
the weekday regex at 536 with WORD = `weekday`).  The optional
`(?:at\s*)` group backtracks: if taking it does not let the hour match,
it is skipped. -/
def matchDailyAt (word : List Char) (s : List Char) :
    Option (List Char × Option (List Char) × Option String) :=
  match litM ("every".data) s with
  | none => none
  | some s1 =>
    match litM word (dropSpaces s1) with
    | none => none
    | some s3 =>
      let s4 := dropSpaces s3
      match (litM ("at".data) s4).bind (fun r => hourTail (dropSpaces r)) with
      | some res => some res
      | none => hourTail s4

/-- Leftmost-match search: try the matcher at every position. -/
def scanFor {α : Type} (m : List Char → Option α) : List Char → Option α
  | [] => m []
  | c :: cs =>
    match m (c :: cs) with
    | some r => some r
    | none => scanFor m cs

/-- Unanchored test for `every\s*WORD` (server.ts 529-531). -/
def testEveryWord (word : List Char) (s : List Char) : Bool :=
  (scanFor
    (fun t => (litM ("every".data) t).bind (fun r => litM word (dropSpaces r)))
    s).isSome

/-- `every\s*(\d+)\s*hours?` at the current position (server.ts 533):
returns the raw digit capture (the source interpolates it verbatim). -/
def matchEveryNAt (s : List Char) : Option (List Char) :=
  (litM ("every".data) s).bind fun s1 =>
    (digits1 (dropSpaces s1)).bind fun p =>
      (litM ("hour".data) (dropSpaces p.2)).map fun _ => p.1

/-- The unit alternation `(second|minute|hour|day)` with its millisecond
multiplier (server.ts 547). -/
def unitAlt (s : List Char) : Option Int :=
  if (litM ("second".data) s).isSome then some 1000
  else if (litM ("minute".data) s).isSome then some 60000
  else if (litM ("hour".data) s).isSome then some 3600000
  else if (litM ("day".data) s).isSome then some 86400000
  else none

/-- `in\s+(\d+)\s*(second|minute|hour|day)s?` at the current position
(server.ts 545). -/
def matchRelAt (s : List Char) : Option (List Char × Int) :=
  (litM ("in".data) s).bind fun s1 =>
    (spaces1 s1).bind fun s2 =>
      (digits1 s2).bind fun p =>
        (unitAlt (dropSpaces p.2)).map fun mult => (p.1, mult)

/-- Character class `[\d\*\/\-\,]` of the cron regex (server.ts 515). -/
def cronFieldChar (c : Char) : Bool :=
  c.isDigit || c = '*' || c = '/' || c = '-' || c = ','

/-- Word-splitting worker: `acc` is the current word, reversed. -/
def wsWordsAux : List Char → List Char → List (List Char)
  | [], acc => if acc.isEmpty then [] else [acc.reverse]
  | c :: cs, acc =>
    if c.isWhitespace then
      if acc.isEmpty then wsWordsAux cs [] else acc.reverse :: wsWordsAux cs []
    else wsWordsAux cs (c :: acc)

/-- Split into maximal whitespace-free words. -/
def wsWords (s : List Char) : List (List Char) :=
  wsWordsAux s []

/-- The anchored 5-field cron regex
`^[\d\*\/\-\,]+\s+[\d\*\/\-\,]+\s+[\d\*\/\-\,]+\s+[\d\*\/\-\,]+\s+[\d\*\/\-\,]+$`
on an already-trimmed string: exactly five words, each made of field
characters (the field class and `\s` are disjoint, so the anchored
regex is equivalent to this word decomposition). -/
def cronTest (trimmed : List Char) : Bool :=
  let ws := wsWords trimmed
  ws.length == 5 && ws.all (fun w => w.all cronFieldChar)

/-- Return type of `parseWhen`: a cron string or a concrete epoch-ms
instant (`Date` values are modelled by their epoch milliseconds; the
source's `Date | number | string` union only ever carries `Date` or
`string`). -/
inductive When where
  | cron (s : String)
  | instant (t : Int)
deriving Repr, DecidableEq

/-- `parseWhen` (server.ts 511-553).  `dateParse` is the platform's
generic `new Date(string)` parser (`none` for an invalid date), `now`
is `Date.now()`. -/
def parseWhen (dateParse : String → Option Int) (now : Int)
    (whenS : String) : When :=
  let trimmed := jsTrim whenS
  if cronTest trimmed.data then .cron trimmed
  else
    let low := (lowerStr whenS).data
    match scanFor (matchDailyAt ("day".data)) low with
    | some (h, mOpt, ap) =>
      let hour0 := digitsVal h
      let minute := match mOpt with | some mm => digitsVal mm | none => 0
      let hour1 := if ap == some "pm" && hour0 < 12 then hour0 + 12 else hour0
      let hour := if ap == some "am" && hour1 == 12 then 0 else hour1
      .cron (toString minute ++ " " ++ toString hour ++ " * * *")
    | none =>
      if testEveryWord ("hour".data) low then .cron "0 * * * *"
      else if testEveryWord ("morning".data) low then .cron "0 7 * * *"
      else if testEveryWord ("evening".data) low then .cron "0 18 * * *"
      else
        match scanFor matchEveryNAt low with
        | some ds => .cron ("0 */" ++ String.mk ds ++ " * * *")
        | none =>
          match scanFor (matchDailyAt ("weekday".data)) low with
          | some (h, mOpt, ap) =>
            let hour0 := digitsVal h
            let minute := match mOpt with | some mm => digitsVal mm | none => 0
            -- the weekday branch has no `am`/12 correction (server.ts 536-541)
            let hour := if ap == some "pm" && hour0 < 12 then hour0 + 12 else hour0
            .cron (toString minute ++ " " ++ toString hour ++ " * * 1-5")
          | none =>
            match scanFor matchRelAt low with
            | some (ds, mult) => .instant (now + (digitsVal ds : Int) * mult)
            | none =>
              match dateParse whenS with
              | some t => .instant t
              | none => .instant (now + 60000)

-- ═══════════════════════════════════════════════════════════════
-- Response parser (server.ts lines 671-711)
-- ═══════════════════════════════════════════════════════════════

/-- Unanchored substring test (`String.prototype.includes`, and the
`test` of literal-only regexes). -/
def containsSub (pat : List Char) (s : List Char) : Bool :=
  (scanFor (litM pat) s).isSome

/-- The lazy body of a fenced block: split at the first position where
the remainder starts with `` \n``` `` (the optional newline being
consumed greedily) or with `` ``` `` — the semantics of
`([\s\S]*?)\n?``` ` — returning the body and the text after the
closing fence.  `none` means no closing fence exists. -/
def closeFence : List Char → Option (List Char × List Char)
  | [] => none
  | c :: cs =>
    if c = '\n' && (("```".data).isPrefixOf cs) then some ([], cs.drop 3)
    else if ("```".data).isPrefixOf (c :: cs) then some ([], (c :: cs).drop 3)
    else (closeFence cs).map (fun p => (c :: p.1, p.2))

/-- Leftmost occurrence of the opener `` ```TAG `` followed by an
optional newline: returns the text before the opener and the text
after it. -/
def openScan (tag : List Char) : List Char → Option (List Char × List Char)
  | [] => none
  | c :: cs =>
    if tag.isPrefixOf (c :: cs) then
      let r := (c :: cs).drop tag.length
      some ([],
        match r with
        | [] => []
        | nl :: r2 => if nl = '\n' then r2 else nl :: r2)
    else (openScan tag cs).map (fun p => (c :: p.1, p.2))

/-- First match of `` ```TAG\n?([\s\S]*?)\n?``` ``: body, text before
the match, text after the match.  When the opener is found but no
closing `` ``` `` follows, the whole pattern has no match: a later
opener occurrence would itself contain `` ``` ``, contradicting the
absence of a closing fence. -/
def findFence (tag : List Char) (s : List Char) :
    Option (List Char × List Char × List Char) :=
  match openScan tag s with
  | none => none
  | some (pre, rest) =>
    match closeFence rest with
    | none => none
    | some (body, suf) => some (body, pre, suf)

/-- All matches of the global fenced-block regex, with the input text
stripped of every matched span (the `exec` loop plus the global
`replace` of server.ts 681-689 in one pass).  Fuel decreases on each
match; `s.length + 1` is always enough since a match consumes at least
the opener. -/
def extractAllFence (tag : List Char) : Nat → List Char →
    List (List Char) × List Char
  | 0, s => ([], s)
  | fuel + 1, s =>
    match findFence tag s with
    | none => ([], s)
    | some (body, pre, suf) =>
      let r := extractAllFence tag fuel suf
      (body :: r.1, pre ++ r.2)

/-- All fenced blocks of a tag, and the text with the blocks removed. -/
def extractAll (tag : List Char) (s : List Char) :
    List (List Char) × List Char :=
  extractAllFence tag (s.length + 1) s

/-- Result of `parseResponse`.  The preference directive is returned to
the caller (the source applies it to the state inside `parseResponse`
via `setState`; the model applies it in `processChatMain`). -/
structure ParsedResponse where
  text : String
  actions : List Json
  sched : Option Json
  pref : Option Json

/-- `parseResponse` (server.ts 671-711).  Action blocks: every block is
stripped from the display text (global `replace`), and a block
contributes an action iff `JSON.parse` succeeds on its body and the
result has a truthy `tool` field.  Schedule and preference blocks: only
the first match is read (searched in the ORIGINAL content), and the
strip of that block from the display text happens only when
`JSON.parse` succeeds — a malformed block stays in the display text
(the `replace` sits after the `parse` inside the same `try`).  The
final `text || "Done!"` default is applied at the end. -/
def parseResponse (jparse : String → Option Json) (content : String) :
    ParsedResponse :=
  let cs := content.data
  let actionPass := extractAll ("```action".data) cs
  let actions := actionPass.1.filterMap (fun b =>
    match jparse (String.mk b) with
    | some j => if truthyOpt (jGet j "tool") then some j else none
    | none => none)
  let t1 := trimChars actionPass.2
  let schedPass : Option Json × List Char :=
    match findFence ("```schedule".data) cs with
    | none => (none, t1)
    | some (body, _, _) =>
      match jparse (String.mk body) with
      | none => (none, t1)
      | some j =>
        (some j,
         match findFence ("```schedule".data) t1 with
         | some (_, pre, suf) => trimChars (pre ++ suf)
         | none => trimChars t1)
  let t2 := schedPass.2
  let prefPass : Option Json × List Char :=
    match findFence ("```preference".data) cs with
    | none => (none, t2)
    | some (body, _, _) =>
      match jparse (String.mk body) with
      | none => (none, t2)
      | some j =>
        (some j,
         match findFence ("```preference".data) t2 with
         | some (_, pre, suf) => trimChars (pre ++ suf)
         | none => trimChars t2)
  let text := String.mk prefPass.2
  { text := if text == "" then "Done!" else text
    actions := actions
    sched := schedPass.1
    pref := prefPass.1 }

-- ═══════════════════════════════════════════════════════════════
-- External world (outbound calls and platform builtins)
-- ═══════════════════════════════════════════════════════════════

/-- Image payload (server.ts 739). -/
structure BridgeImage where
  data : String
  mimeType : String
deriving Repr, DecidableEq

/-- Normalized result of `callBridge` (server.ts 739-762).  `callBridge`
itself never throws: failures come back as
`{ success: false, error: "Timeout" | "Bridge unreachable" }`. -/
structure BridgeResult where
  success : Bool
  result : Option String
  error : Option String
  image : Option BridgeImage

/-- The session's external environment for one operation: outbound
calls, platform builtins and the clock.

* `bridge` — `callBridge` (server.ts 739-762), exception-free.
* `claude` — `callClaude` (713-727): system prompt and messages to
  generated text; `.error` is the thrown `Claude API error` (724) or a
  network failure.
* `tools` — the result of `fetchTools` (729-737), `[]` on failure.
* `buildPrompt` — abstracts `buildSystemPrompt` (555-668), a pure
  string format of the tool catalog and preferences consumed only by
  `claude`.
* `jparse` — platform `JSON.parse` (`none` = throws).
* `dateParse` — platform `new Date(string)` (`none` = invalid date).
* `now` — `Date.now()` during this operation.
* `schedId` — the id minted by the platform `this.schedule` call.
* `apiSecret` — `env.API_SECRET`.
* `phoneExtract` — abstracts the phone-number regex extraction
  (server.ts 406-407): the claims quantify over its behaviour.
* `extractIntended` — abstracts the `saying|say|that|to say` fallback
  patterns (server.ts 415-426). -/
structure ExtWorld where
  bridge : String → Args → BridgeResult
  claude : String → List Message → Except String String
  tools : List Tool
  buildPrompt : List Tool → List (String × String) → String
  jparse : String → Option Json
  dateParse : String → Option Int
  now : Int
  schedId : String
  apiSecret : String
  phoneExtract : String → Option String
  extractIntended : String → Option String

/-- Externally visible effects of one operation, in order. -/
inductive Event where
  | rateCheck (allowed : Bool)
  | claudeCall
  | bridgeCall (tool : String) (args : Args)
  | scheduleReg (id : String)

/-- `/make\s*up|create|write|generate/i.test(message)` (server.ts 428). -/
def wantsGenerated (m : String) : Bool :=
  let low := (lowerStr m).data
  (scanFor
    (fun t => (litM ("make".data) t).bind (fun r => litM ("up".data) (dropSpaces r)))
    low).isSome
  || containsSub ("create".data) low
  || containsSub ("write".data) low
  || containsSub ("generate".data) low

-- ═══════════════════════════════════════════════════════════════
-- Chat processing (server.ts lines 296-455)
-- ═══════════════════════════════════════════════════════════════

/-- `Array.prototype.slice(-n)` — the most recent `n` entries. -/
def lastN {α : Type} (n : Nat) (l : List α) : List α :=
  l.drop (l.length - n)

/-- A `user` history entry. -/
def userMsg (m : String) : Message := { role := "user", content := m }

/-- An `assistant` history entry. -/
def asstMsg (m : String) : Message := { role := "assistant", content := m }

/-- One element of `actionResults` (server.ts 384, 395-400); the
string coercions of the TS non-null assertions default to `""`. -/
structure ActionResult where
  tool : String
  args : Args
  result : String
  success : Bool
  image : Option BridgeImage

/-- The `scheduled` part of a chat result (server.ts 389). -/
structure ScheduledInfo where
  id : String
  whenExpr : String
  description : String

/-- Return value of `processChat` (server.ts 325-330). -/
structure ChatResult where
  message : String
  action : Option ActionResult
  actions : Option (List ActionResult)
  scheduled : Option ScheduledInfo

/-- Outcome of one chat-processing run: the returned value or the
thrown error, the state after all `setState` calls that happened before
the return/throw, and the externally visible events in order. -/
structure ChatStep where
  out : Except String ChatResult
  st : SystemState
  evs : List Event

/-- Build an `ActionResult` from a bridge result (server.ts 395-401). -/
def mkActionResult (tool : String) (args : Args) (r : BridgeResult) :
    ActionResult :=
  { tool := tool
    args := args
    result := if r.success then r.result.getD "" else r.error.getD ""
    success := r.success
    image := r.image }

/-- Whether a character list appears in a string, lowercased —
`x.toLowerCase().includes(pat)`. -/
def lowerContains (pat : List Char) (s : String) : Bool :=
  containsSub pat ((lowerStr s).data)

/-- `{ key: v }`-style update of the preferences record,
`{ ...this.state.preferences, [pref.key]: pref.value }`
(server.ts 706). -/
def setPref (prefs : List (String × String)) (k v : String) :
    List (String × String) :=
  if prefs.any (fun p => p.1 == k) then
    prefs.map (fun p => cond (p.1 == k) (k, v) p)
  else
    prefs ++ [(k, v)]

/-- `scheduleAction` (server.ts 457-477).  The platform `this.schedule`
call mints `ext.schedId`; `isRecurring` is
`typeof when === "string" && when.includes("*")`; the registry record
stores the parsed cron string when one was produced, the original
expression otherwise. -/
def scheduleAction (ext : ExtWorld) (st : SystemState) (sj : Json) :
    SystemState × ScheduledInfo × List Event :=
  let whenS := jStrD (jGet sj "when") ""
  let tool := jStrD (jGet sj "tool") ""
  let args := jArgsD (jGet sj "args")
  let desc := jStrD (jGet sj "description") ""
  let w := parseWhen ext.dateParse ext.now whenS
  let isRec := match w with
    | .cron s => s.data.any (fun c => c = '*')
    | .instant _ => false
  let record : ScheduleRecord :=
    { id := ext.schedId
      whenExpr := match w with | .cron s => s | .instant _ => whenS
      tool := tool
      args := args
      description := desc
      createdAt := ext.now
      isRecurring := isRec }
  ({ st with scheduleRegistry := st.scheduleRegistry ++ [record] },
   { id := ext.schedId, whenExpr := whenS, description := desc },
   [Event.scheduleReg ext.schedId])

/-- The action loop of `processChat` (server.ts 392-455), including the
contact-search → message human-in-the-loop flow (404-445) and the final
history update (448-452).  `response` is the raw completion text stored
in history; `text` the cleaned display text returned to the caller. -/
def runActions (ext : ExtWorld) (st : SystemState) (message response text : String)
    (schedOut : Option ScheduledInfo) (acc : List ActionResult)
    (evs : List Event) : List Json → ChatStep
  | [] =>
    { out := .ok
        { message := text
          action := acc.head?
          actions := some acc
          scheduled := schedOut }
      st := { st with
        history := lastN 50 (st.history ++ [userMsg message, asstMsg response])
        lastActive := ext.now }
      evs := evs }
  | a :: rest =>
    let tool := jStrD (jGet a "tool") ""
    let args := jArgsD (jGet a "args")
    let r := ext.bridge tool args
    let evs1 := evs ++ [Event.bridgeCall tool args]
    let acc1 := acc ++ [mkActionResult tool args r]
    let contact :=
      tool == "search_contacts" && r.success &&
        (match r.result with
         | some s => s != "" && !(lowerContains ("error".data) s)
         | none => false)
    if contact then
      match ext.phoneExtract (r.result.getD "") with
      | some phone =>
        let found := r.result.getD ""
        let argMsg :=
          match List.lookup "message" args with
          | some (Json.str s) => s
          | _ => ""
        let intended :=
          if argMsg == "" then (ext.extractIntended message).getD ""
          else argMsg
        if wantsGenerated message then
          match ext.claude
              "Write a short, friendly message. Just the text, nothing else."
              [userMsg ("Write: \"" ++ message ++ "\"")] with
          | .error e => { out := .error e, st := st, evs := evs1 ++ [Event.claudeCall] }
          | .ok gen =>
            let genT := jsTrim gen
            let pa : PendingAction :=
              { tool := "send_imessage"
                args := [("to", Json.str phone), ("message", Json.str genT)]
                context := found
                originalRequest := message }
            -- this setState (server.ts 430) does not touch history
            { out := .ok
                { message := "Found: **" ++ found ++ "**\n\n> \"" ++ genT
                    ++ "\"\n\nSend? *(yes/no)*"
                  action := none
                  actions := some acc1
                  scheduled := none }
              st := { st with pendingAction := some pa }
              evs := evs1 ++ [Event.claudeCall] }
        else
          let pa : PendingAction :=
            { tool := "send_imessage"
              args := [("to", Json.str phone), ("message", Json.str intended)]
              context := found
              originalRequest := message }
          { out := .ok
              { message :=
                  if intended != "" then
                    "Found: **" ++ found ++ "**\n\nSend \"" ++ intended
                      ++ "\"? *(yes/no)*"
                  else "Found: **" ++ found ++ "**\n\nWhat message?"
                action := none
                actions := some acc1
                scheduled := none }
            st := { st with
              pendingAction := some pa
              history := lastN 50 (st.history ++ [userMsg message]) }
            evs := evs1 }
      | none => runActions ext st message response text schedOut acc1 evs1 rest
    else runActions ext st message response text schedOut acc1 evs1 rest

/-- The no-pending-action part of `processChat` (server.ts 377-455):
fetch tools, call the completion service, parse the response, apply a
preference directive, register a schedule directive, run the actions.
A completion failure propagates (`.error`) with the state as mutated so
far. -/
def processChatMain (ext : ExtWorld) (st : SystemState) (message : String) :
    ChatStep :=
  let tools := ext.tools
  let messages := lastN 40 st.history ++ [userMsg message]
  let sys := ext.buildPrompt tools st.preferences
  match ext.claude sys messages with
  | .error e => { out := .error e, st := st, evs := [Event.claudeCall] }
  | .ok response =>
    let pr := parseResponse ext.jparse response
    let st1 :=
      match pr.pref with
      | some p =>
        if p.truthy then
          let prefs := setPref st.preferences (jStrD (jGet p "key") "undefined")
            (jStrD (jGet p "value") "undefined")
          { st with preferences := prefs }
        else st
      | none => st
    let schedStep : SystemState × Option ScheduledInfo × List Event :=
      match pr.sched with
      | some sj =>
        if sj.truthy then
          let s := scheduleAction ext st1 sj
          (s.1, some s.2.1, [Event.claudeCall] ++ s.2.2)
        else (st1, none, [Event.claudeCall])
      | none => (st1, none, [Event.claudeCall])
    runActions ext schedStep.1 message response pr.text schedStep.2.1 []
      schedStep.2.2 pr.actions

/-- `processChat` (server.ts 325-455).  The pending-action branch
(331-375): confirmation executes the stored action; cancellation
discards it; an empty `send_imessage` body treats the message as the
missing content; anything else clears the pending action and falls
through to normal processing. -/
def processChat (ext : ExtWorld) (st : SystemState) (message : String) :
    ChatStep :=
  match st.pendingAction with
  | some pending =>
    if isConfirmation message then
      let r := ext.bridge pending.tool pending.args
      { out := .ok
          { message := if r.success then "Sent!"
              else "Failed: " ++ r.error.getD "undefined"
            action := some
              { tool := pending.tool
                args := pending.args
                result := if r.success then r.result.getD "" else r.error.getD ""
                success := r.success
                image := none }
            actions := none
            scheduled := none }
        st := { st with
          pendingAction := none
          history := lastN 50 (st.history ++
            [userMsg message, asstMsg (if r.success then "Sent!" else "Failed.")])
          lastActive := ext.now }
        evs := [Event.bridgeCall pending.tool pending.args] }
    else if isCancellation message then
      { out := .ok
          { message := "Cancelled.", action := none, actions := none
            scheduled := none }
        st := { st with
          pendingAction := none
          history := lastN 50 (st.history ++
            [userMsg message, asstMsg "Cancelled."])
          lastActive := ext.now }
        evs := [] }
    else if (match List.lookup "message" pending.args with
             | some (Json.str s) => s == ""
             | _ => false) && pending.tool == "send_imessage" then
      { out := .ok
          { message := "Send \"" ++ message ++ "\" to "
              ++ jStrD (List.lookup "to" pending.args) "undefined"
              ++ "? *(yes/no)*"
            action := none, actions := none, scheduled := none }
        st := { st with
          pendingAction := some
            { pending with args := setField pending.args "message" (Json.str message) }
          history := lastN 50 (st.history ++ [userMsg message])
          lastActive := ext.now }
        evs := [] }
    else
      -- server.ts 374: clear the stale pending action, then fall through
      processChatMain ext { st with pendingAction := none } message
  | none => processChatMain ext st message

/-- Payload of a scheduled trigger (`ScheduledAction`, server.ts 65-69). -/
structure ScheduledAction where
  tool : String
  args : Args
  description : String

/-- `executeScheduledAction` (server.ts 479-509): run the tool, append
a labelled history entry (capped at 50), and drop the registry record
when it was one-time (matched by tool + description). -/
def executeScheduledAction (ext : ExtWorld) (st : SystemState)
    (p : ScheduledAction) : SystemState × List Event :=
  let r := ext.bridge p.tool p.args
  let registry := st.scheduleRegistry
  let recM := registry.find?
    (fun s => s.tool == p.tool && s.description == p.description)
  let entry := asstMsg ("[Scheduled: " ++ p.description ++ "]\n"
    ++ (if r.success then r.result.getD "undefined" else r.error.getD "undefined"))
  let st' :=
    match recM with
    | some r0 =>
      if r0.isRecurring then
        { st with history := lastN 50 (st.history ++ [entry]) }
      else
        { st with
          history := lastN 50 (st.history ++ [entry])
          scheduleRegistry := registry.filter (fun s => s.id != r0.id) }
    | none => { st with history := lastN 50 (st.history ++ [entry]) }
  (st', [Event.bridgeCall p.tool p.args])

-- ═══════════════════════════════════════════════════════════════
-- HTTP surface (server.ts lines 195-314)
-- ═══════════════════════════════════════════════════════════════

/-- `String.prototype.endsWith`. -/
def endsWithStr (s suf : String) : Bool :=
  (suf.data).isSuffixOf s.data

/-- The `DELETE` route pattern `/\/schedules\/[^/]+$/` (server.ts 268):
the path ends with `/schedules/` followed by a nonempty segment without
a slash. -/
def isDelSchedPath (path : String) : Bool :=
  let r := path.data.reverse
  let seg := r.takeWhile (fun c => c ≠ '/')
  !seg.isEmpty && (("/schedules/".data).reverse).isPrefixOf (r.drop seg.length)

/-- `path.split('/').pop()` for a path matching the delete route. -/
def delSchedId (path : String) : String :=
  String.mk ((path.data.reverse.takeWhile (fun c => c ≠ '/')).reverse)

/-- The responses `onRequest` can produce, by route (the `deleteBad`
branch at server.ts 279 is unreachable: the route regex guarantees a
nonempty id). -/
inductive HttpOut where
  | statusOk
  | health (schedules : Nat)
  | rateLimited (resetSec : Int)
  | chatOk (r : ChatResult)
  | serverErr (msg : String)
  | resetOk
  | stateInfo (historyLength : Nat) (preferences : List (String × String))
  | execOk (r : BridgeResult)
  | schedulesList (registry : List ScheduleRecord)
  | deleteOk
  | deleteBad
  | historyOut (history : List Message) (lastActive : Int)
  | clearOk
  | notFound

/-- `onRequest` (server.ts 195-294) plus `handleChat`/`handleExecute`
(296-314).  `chatBody`/`execBody` are the parsed request bodies
(`none` = `request.json()` threw, producing the 500 catch branch).
The `/` status route and `/health` precede the rate-limit check;
everything else runs after it. -/
def onRequest (ext : ExtWorld) (st : SystemState) (path method : String)
    (chatBody : Option String) (execBody : Option (String × Args)) :
    HttpOut × SystemState × List Event :=
  if path == "/" && method == "GET" then (.statusOk, st, [])
  else if endsWithStr path "/health" then
    (.health st.scheduleRegistry.length, st, [])
  else
    let rlStep := checkRateLimit st.rateLimit ext.now
    let st1 := { st with rateLimit := some rlStep.1 }
    let evs := [Event.rateCheck rlStep.2.allowed]
    if !rlStep.2.allowed then
      (.rateLimited ((rlStep.2.resetIn + 999) / 1000), st1, evs)
    else if endsWithStr path "/chat" && method == "POST" then
      match chatBody with
      | none => (.serverErr "Invalid body", st1, evs)
      | some m =>
        let step := processChat ext st1 m
        match step.out with
        | .ok r => (.chatOk r, step.st, evs ++ step.evs)
        | .error e => (.serverErr e, step.st, evs ++ step.evs)
    else if endsWithStr path "/reset" && method == "POST" then
      (.resetOk, resetState st1 ext.now, evs)
    else if endsWithStr path "/state" && method == "GET" then
      (.stateInfo st1.history.length st1.preferences, st1, evs)
    else if endsWithStr path "/execute" && method == "POST" then
      match execBody with
      | none => (.serverErr "Invalid body", st1, evs)
      | some b =>
        (.execOk (ext.bridge b.1 b.2), st1, evs ++ [Event.bridgeCall b.1 b.2])
    else if endsWithStr path "/schedules" && method == "GET" then
      (.schedulesList st1.scheduleRegistry, st1, evs)
    else if isDelSchedPath path && method == "DELETE" then
      let sid := delSchedId path
      let registry := st1.scheduleRegistry.filter (fun s => s.id != sid)
      (.deleteOk, { st1 with scheduleRegistry := registry }, evs)
    else if endsWithStr path "/history" && method == "GET" then
      (.historyOut st1.history st1.lastActive, st1, evs)
    else if endsWithStr path "/clear" && method == "POST" then
      (.clearOk, { st1 with history := [] }, evs)
    else (.notFound, st1, evs)

-- ═══════════════════════════════════════════════════════════════
-- WebSocket surface (server.ts lines 120-150)
-- ═══════════════════════════════════════════════════════════════

/-- What `onMessage` sends back on the connection (`silent` = nothing:
unparseable JSON or a thrown error swallowed by the empty `catch`, or
an ignored message type). -/
inductive WsOut where
  | pong
  | errNotification (title msg : String)
  | chatReply (r : ChatResult)
  | silent

/-- `onMessage` (server.ts 120-150).  Note there is NO rate-limit check
on this transport: a `chat` frame with a valid token goes straight to
`processChat`.  A truthy non-string `token` fails the `length`
comparison inside `timingSafeEqual` and yields the invalid-token
notification.  (A truthy non-string `message` would throw inside
processing and be swallowed; that corner is modelled as a silent drop
and is exercised by no claim.) -/
def onMessage (ext : ExtWorld) (st : SystemState) (raw : String) :
    WsOut × SystemState × List Event :=
  match ext.jparse raw with
  | none => (.silent, st, [])
  | some data =>
    if (match jGet data "type" with
        | some (Json.str t) => t == "ping" | _ => false) then
      (.pong, st, [])
    else if (match jGet data "type" with
             | some (Json.str t) => t == "chat" | _ => false)
        && truthyOpt (jGet data "token")
        && truthyOpt (jGet data "message") then
      match jGet data "token" with
      | some (Json.str tok) =>
        if !timingSafeEqual (codeUnits tok) (codeUnits ext.apiSecret) then
          (.errNotification "Error" "Invalid token", st, [])
        else
          match jGet data "message" with
          | some (Json.str m) =>
            let step := processChat ext st m
            match step.out with
            | .ok r => (.chatReply r, step.st, step.evs)
            | .error _ => (.silent, step.st, step.evs)
          | _ => (.silent, st, [])
      | _ => (.errNotification "Error" "Invalid token", st, [])
    else (.silent, st, [])

-- ═══════════════════════════════════════════════════════════════
-- Operations on a session
-- ═══════════════════════════════════════════════════════════════

/-- One operation applied to a session: an HTTP request, a WebSocket
frame, or a scheduled-trigger firing, each with the external world it
observes. -/
inductive Op where
  | http (ext : ExtWorld) (path method : String) (chatBody : Option String)
      (execBody : Option (String × Args))
  | ws (ext : ExtWorld) (raw : String)
  | fire (ext : ExtWorld) (payload : ScheduledAction)

/-- The state after one operation. -/
def applyOp (st : SystemState) : Op → SystemState
  | .http ext path method chatBody execBody =>
    (onRequest ext st path method chatBody execBody).2.1
  | .ws ext raw => (onMessage ext st raw).2.1
  | .fire ext payload => (executeScheduledAction ext st payload).1

/-- A whole session run. -/
def runOps (st : SystemState) (ops : List Op) : SystemState :=
  ops.foldl applyOp st

/-- An inbound chat request, on either transport (for the rate-limit
ordering claim). -/
inductive Inbound where
  | http (path method : String) (chatBody : Option String)
      (execBody : Option (String × Args))
  | ws (raw : String)

/-- The events an inbound request produces. -/
def dispatchEvents (ext : ExtWorld) (st : SystemState) : Inbound → List Event
  | .http path method chatBody execBody =>
    (onRequest ext st path method chatBody execBody).2.2
  | .ws raw => (onMessage ext st raw).2.2

/-- Whether an inbound request is a chat request: an HTTP `POST` to
`/chat`, or a WebSocket frame whose parsed payload is a `chat` message
with truthy token and message (server.ts 132). -/
def isChatInbound (ext : ExtWorld) : Inbound → Bool
  | .http path method _ _ => endsWithStr path "/chat" && method == "POST"
  | .ws raw =>
    match ext.jparse raw with
    | some data =>
      (match jGet data "type" with
       | some (Json.str t) => t == "chat" | _ => false)
      && truthyOpt (jGet data "token")
      && truthyOpt (jGet data "message")
    | none => false

/-- Event classifiers for the ordering claims. -/
def Event.isWork : Event → Bool
  | .claudeCall => true
  | .bridgeCall _ _ => true
  | _ => false

/-- Whether an event is a rate-limit check. -/
def Event.isRateCheck : Event → Bool
  | .rateCheck _ => true
  | _ => false

-- ═══════════════════════════════════════════════════════════════
-- Harness definitions used by the theorems
-- ═══════════════════════════════════════════════════════════════

/-- A sequence of rate-limit checks at the given times, threading the
stored window exactly as `checkRateLimit` + `setState` do. -/
def rateRun : Option RateLimit → List Int → Option RateLimit × List RateResult
  | rl, [] => (rl, [])
  | rl, t :: ts =>
    let s := checkRateLimit rl t
    let r := rateRun (some s.1) ts
    (r.1, s.2 :: r.2)

/-- The backtick character. -/
def btk : Char := Char.ofNat 96

/-- "Contains no backtick": the prose/body shape for which the fenced
directive grammar is unambiguous. -/
def NB (l : List Char) : Prop := ∀ c ∈ l, c ≠ btk

/-- A fenced directive block as produced by the model,
`` ```TAG\nBODY\n``` ``. -/
def fenceBlock (tag body : String) : String :=
  "```" ++ tag ++ "\n" ++ body ++ "\n```"

/-- A benign external world used to instantiate witnesses: the bridge
succeeds, the completion service replies with plain text, `JSON.parse`
and date parsing reject everything. -/
def extW : ExtWorld :=
  { bridge := fun _ _ =>
      { success := true, result := some "done", error := none, image := none }
    claude := fun _ _ => .ok "Hello there"
    tools := []
    buildPrompt := fun _ _ => "sys"
    jparse := fun _ => none
    dateParse := fun _ => none
    now := 5000
    schedId := "sched-1"
    apiSecret := "sekrit"
    phoneExtract := fun _ => none
    extractIntended := fun _ => none }

/-- A pending `send_imessage` action awaiting confirmation. -/
def paPendW : PendingAction :=
  { tool := "send_imessage"
    args := [("to", Json.str "+15551234567"), ("message", Json.str "hi")]
    context := "ctx"
    originalRequest := "orig" }

/-- A pending `send_imessage` action with the body still missing
(the `AWAITING_CLARIFICATION` shape). -/
def paClarW : PendingAction :=
  { tool := "send_imessage"
    args := [("to", Json.str "+15551234567"), ("message", Json.str "")]
    context := "ctx"
    originalRequest := "orig" }

/-- Session state with a pending confirmation. -/
def stPendW : SystemState :=
  { initialState 0 with pendingAction := some paPendW }

/-- Session state awaiting clarification. -/
def stClarW : SystemState :=
  { initialState 0 with pendingAction := some paClarW }

/-- Session state whose current rate-limit window is exhausted at
`now = 5000` (60 calls already made, window resets at 70000). -/
def stFullW : SystemState :=
  { initialState 0 with rateLimit := some { count := 60, resetAt := 70000 } }

/-- A `JSON.parse` oracle recognising exactly one WebSocket chat frame
(consistent with the real `JSON.parse` on the strings it is applied
to in the counterexample run). -/
def wsParseW : String → Option Json := fun s =>
  if s = "WSCHAT" then
    some (Json.obj
      [("type", Json.str "chat"), ("token", Json.str "sekrit"),
       ("message", Json.str "hi")])
  else none

/-- The world observed by the WebSocket counterexample frame. -/
def extWsW : ExtWorld := { extW with jparse := wsParseW }

/-- A world whose completion service fails. -/
def extFailW : ExtWorld :=
  { extW with claude := fun _ _ => .error "Claude API error: 500" }

/-- A malformed (non-JSON) directive body. -/
def actBad : String := "not json"

/-- A well-formed action directive body,
`{"tool": "battery_status", "args": {}}`. -/
def actGood : String := "\x7b\"tool\": \"battery_status\", \"args\": \x7b\x7d\x7d"

/-- A well-formed schedule directive body. -/
def schedBody : String :=
  "\x7b\"when\": \"in 5 minutes\", \"tool\": \"notify\", \"args\": \x7b\x7d\x7d"

/-- A completion text mixing prose, a malformed action block, a
well-formed action block and a schedule block. -/
def contentC6 : String :=
  "Intro\n" ++ fenceBlock "action" actBad ++ "\nmid\n"
    ++ fenceBlock "action" actGood ++ "\nmid2\n"
    ++ fenceBlock "schedule" schedBody ++ "\ntail"

/-- The JSON value of `actGood`. -/
def actGoodJson : Json :=
  Json.obj [("tool", Json.str "battery_status"), ("args", Json.obj [])]

/-- The JSON value of `schedBody`. -/
def schedBodyJson : Json :=
  Json.obj [("when", Json.str "in 5 minutes"), ("tool", Json.str "notify"),
    ("args", Json.obj [])]

/-- A `JSON.parse` oracle consistent with the real one on the bodies of
`contentC6`. -/
def jpC6 : String → Option Json := fun s =>
  if s = actGood then some actGoodJson
  else if s = schedBody then some schedBodyJson
  else none

-- ═══════════════════════════════════════════════════════════════
-- Theorems
-- ═══════════════════════════════════════════════════════════════

lemma natOrZero (a b : Nat) : a ||| b = 0 ↔ a = 0 ∧ b = 0 := by
  constructor
  · intro h
    constructor
    · apply Nat.eq_of_testBit_eq
      intro i
      have hb := congrArg (fun x => Nat.testBit x i) h
      simp [Nat.testBit_or] at hb
      simp [hb.1]
    · apply Nat.eq_of_testBit_eq
      intro i
      have hb := congrArg (fun x => Nat.testBit x i) h
      simp [Nat.testBit_or] at hb
      simp [hb.2]
  · rintro ⟨rfl, rfl⟩
    rfl

lemma foldl_lor (l : List (Nat × Nat)) (m : Nat) :
    (l.foldl (fun acc p => acc ||| (p.1 ^^^ p.2)) m = 0) ↔
      (m = 0 ∧ ∀ p ∈ l, p.1 = p.2) := by
  induction l generalizing m with
  | nil => simp
  | cons p l ih =>
    simp only [List.foldl_cons, ih, natOrZero, Nat.xor_eq_zero, List.mem_cons]
    constructor
    · rintro ⟨⟨h1, h2⟩, h3⟩
      exact ⟨h1, fun q hq => hq.elim (fun e => e ▸ h2) (h3 q)⟩
    · rintro ⟨h1, h2⟩
      exact ⟨⟨h1, h2 p (Or.inl rfl)⟩, fun q hq => h2 q (Or.inr hq)⟩

lemma zipAllEq (a b : List Nat) (h : a.length = b.length) :
    (∀ p ∈ a.zip b, p.1 = p.2) ↔ a = b := by
  induction a generalizing b with
  | nil => cases b <;> simp_all
  | cons x xs ih =>
    cases b with
    | nil => simp at h
    | cons y ys =>
      have h2 : xs.length = ys.length := by simpa using h
      simp only [List.zip_cons_cons, List.mem_cons, List.cons.injEq]
      constructor
      · intro hp
        refine ⟨hp (x, y) (Or.inl rfl), ?_⟩
        exact (ih ys h2).mp (fun q hq => hp q (Or.inr hq))
      · rintro ⟨rfl, rfl⟩
        intro q hq
        rcases hq with rfl | hq
        · rfl
        · exact ((ih xs rfl).mpr rfl) q hq

/-- C10.  `timingSafeEqual(a, b)` returns `true` exactly when the two
code-unit sequences are identical (same length and same units); in
particular, on whole strings it accepts exactly equality with the
configured secret. -/
theorem claim_C10 :
    (∀ a b : List Nat, timingSafeEqual a b = true ↔ a = b) ∧
    (∀ s t : String, timingSafeEqual (codeUnits s) (codeUnits t) = true ↔ s = t) := by
  have core : ∀ a b : List Nat, timingSafeEqual a b = true ↔ a = b := by
    intro a b
    unfold timingSafeEqual
    by_cases h : a.length = b.length
    · simp only [h, bne_self_eq_false, Bool.false_eq_true, if_false, beq_iff_eq,
        foldl_lor, true_and]
      exact zipAllEq a b h
    · simp only [bne_iff_ne, ne_eq, h, not_false_iff, if_true]
      constructor
      · intro hf
        exact absurd hf (by simp)
      · intro he
        exact absurd (congrArg List.length he) h
  refine ⟨core, fun s t => ?_⟩
  rw [core]
  unfold codeUnits
  constructor
  · intro h
    have hd : s.data = t.data := by
      apply List.map_injective_iff.mpr ?_ h
      intro c d hcd
      simpa [Char.ext_iff, UInt32.ext_iff] using hcd
    cases s; cases t; simp_all
  · intro h
    rw [h]

lemma endsWith_excl (p a b : String)
    (h : endsWithStr p a = true)
    (hab : ¬ (a.data.reverse <+: b.data.reverse) ∧
           ¬ (b.data.reverse <+: a.data.reverse)) :
    endsWithStr p b = false := by
  unfold endsWithStr at *
  by_contra hb
  rw [Bool.not_eq_false] at hb
  rw [List.isSuffixOf_iff_suffix] at h hb
  have ha2 := List.reverse_prefix.mpr h
  have hb2 := List.reverse_prefix.mpr hb
  rcases List.prefix_or_prefix_of_prefix ha2 hb2 with hc | hc
  · exact hab.1 hc
  · exact hab.2 hc

/-- C9.  When the rate limiter admits the request, `POST /reset`
replaces the state by `resetState`: history, pending action and the
schedule registry are cleared while the preferences are preserved, and
resetting a reset state is the same as resetting once (idempotence up
to the `lastActive` timestamp). -/
theorem claim_C9 (ext : ExtWorld) (st : SystemState) (path : String)
    (chatBody : Option String) (execBody : Option (String × Args))
    (hpath : endsWithStr path "/reset" = true)
    (hallow : (checkRateLimit st.rateLimit ext.now).2.allowed = true) :
    (onRequest ext st path "POST" chatBody execBody).1 = .resetOk
    ∧ (onRequest ext st path "POST" chatBody execBody).2.1 = resetState st ext.now
    ∧ (resetState st ext.now).history = []
    ∧ (resetState st ext.now).pendingAction = none
    ∧ (resetState st ext.now).scheduleRegistry = []
    ∧ (resetState st ext.now).preferences = st.preferences
    ∧ (∀ t2 : Int, resetState (resetState st ext.now) t2 = resetState st t2) := by
  have hh : endsWithStr path "/health" = false :=
    endsWith_excl path "/reset" "/health" hpath (by refine ⟨?_, ?_⟩ <;> decide)
  have hc : endsWithStr path "/chat" = false :=
    endsWith_excl path "/reset" "/chat" hpath (by refine ⟨?_, ?_⟩ <;> decide)
  simp only [onRequest, hh, hc, hpath, hallow, Bool.false_and, Bool.and_false,
    Bool.and_true, Bool.true_and, Bool.not_true, if_false, if_true,
    Bool.false_eq_true, ite_false, ite_true]
  refine ⟨?_, ?_, rfl, rfl, rfl, rfl, fun t2 => rfl⟩
  · simp
  · simp [resetState]

theorem claim_C9_witness :
    endsWithStr "/agents/system-agent/reset" "/reset" = true ∧
    (checkRateLimit stPendW.rateLimit extW.now).2.allowed = true ∧
    ((onRequest extW stPendW "/agents/system-agent/reset" "POST" none none).1 = HttpOut.resetOk
     ∧ (onRequest extW stPendW "/agents/system-agent/reset" "POST" none none).2.1 =
         resetState stPendW extW.now
     ∧ (resetState stPendW extW.now).history = []
     ∧ (resetState stPendW extW.now).pendingAction = none
     ∧ (resetState stPendW extW.now).scheduleRegistry = []
     ∧ (resetState stPendW extW.now).preferences = stPendW.preferences
     ∧ (∀ t2 : Int, resetState (resetState stPendW extW.now) t2 = resetState stPendW t2)) :=
  ⟨by decide, by decide,
   claim_C9 extW stPendW "/agents/system-agent/reset" none none (by decide) (by decide)⟩

lemma confirm_cancel_disjoint (m : String) :
    ¬(isConfirmation m = true ∧ isCancellation m = true) := by
  rintro ⟨h1, h2⟩
  simp only [isConfirmation, isCancellation, List.any_eq_true, beq_iff_eq] at h1 h2
  obtain ⟨w1, hw1, s1, hs1, e1⟩ := h1
  obtain ⟨w2, hw2, s2, hs2, e2⟩ := h2
  have he : w1 ++ s1 = w2 ++ s2 := e1 ▸ e2
  have hd : ∀ u1 ∈ confirmWords, ∀ t1 ∈ punctTails, ∀ u2 ∈ cancelWords,
      ∀ t2 ∈ punctTails, u1 ++ t1 ≠ u2 ++ t2 := by decide
  exact hd w1 hw1 s1 hs1 w2 hw2 s2 hs2 he

/-- C2.  With a pending action stored, a message matching the
confirmation grammar executes exactly the stored action through the
tool-catalog client and clears `pendingAction`; a message matching the
cancellation grammar clears `pendingAction` without any external call.
(That at most one pending action exists at a time is structural:
`SystemState.pendingAction` is an `Option`.) -/
theorem claim_C2 (ext : ExtWorld) (st : SystemState) (p : PendingAction)
    (m : String) (hp : st.pendingAction = some p) :
    (isConfirmation m = true →
      (processChat ext st m).st.pendingAction = none
      ∧ (processChat ext st m).evs = [Event.bridgeCall p.tool p.args]
      ∧ ∃ r, (processChat ext st m).out = .ok r)
    ∧ (isCancellation m = true →
      (processChat ext st m).st.pendingAction = none
      ∧ (processChat ext st m).evs = []
      ∧ (processChat ext st m).out = .ok
          { message := "Cancelled.", action := none, actions := none,
            scheduled := none }) := by
  constructor
  · intro hc
    refine ⟨?_, ?_, ?_⟩
    · simp only [processChat, hp, hc, if_true, ite_true]
    · simp only [processChat, hp, hc, if_true, ite_true]
    · simp only [processChat, hp, hc, if_true, ite_true]
      exact ⟨_, rfl⟩
  · intro hc
    have hcf : isConfirmation m = false := by
      cases h : isConfirmation m
      · rfl
      · exact absurd ⟨h, hc⟩ (confirm_cancel_disjoint m)
    refine ⟨?_, ?_, ?_⟩ <;>
      simp only [processChat, hp, hcf, hc, Bool.false_eq_true, ite_false,
        ite_true, if_true, if_false]

theorem claim_C2_witness :
    stPendW.pendingAction = some paPendW ∧
    isConfirmation "yes" = true ∧ isCancellation "no!" = true ∧
    ((processChat extW stPendW "yes").st.pendingAction = none
     ∧ (processChat extW stPendW "yes").evs =
         [Event.bridgeCall paPendW.tool paPendW.args]
     ∧ ∃ r, (processChat extW stPendW "yes").out = .ok r) ∧
    ((processChat extW stPendW "no!").st.pendingAction = none
     ∧ (processChat extW stPendW "no!").evs = []
     ∧ (processChat extW stPendW "no!").out = .ok
         { message := "Cancelled.", action := none, actions := none,
           scheduled := none }) :=
  ⟨rfl, by decide, by decide,
   (claim_C2 extW stPendW paPendW "yes" rfl).1 (by decide),
   (claim_C2 extW stPendW paPendW "no!" rfl).2 (by decide)⟩

lemma lookup_setField (fs : Args) (k : String) (v : Json) :
    List.lookup k (setField fs k v) = some v := by
  unfold setField
  split
  case isTrue h =>
    induction fs with
    | nil => simp at h
    | cons q fs ih =>
      by_cases hk : q.1 = k
      · have hq : (q.1 == k) = true := beq_iff_eq.mpr hk
        simp [List.map_cons, hq, List.lookup]
      · have hne : (q.1 == k) = false := beq_eq_false_iff_ne.mpr hk
        have hne2 : (k == q.1) = false :=
          beq_eq_false_iff_ne.mpr (fun e => hk e.symm)
        simp only [List.any_cons, hne, Bool.false_or] at h
        simp only [List.map_cons, hne, Bool.cond_false, List.lookup, hne2]
        exact ih h
  case isFalse h =>
    induction fs with
    | nil => simp [List.lookup]
    | cons q fs ih =>
      simp only [List.any_cons, Bool.or_eq_true, not_or] at h
      have hne2 : (k == q.1) = false := by
        refine beq_eq_false_iff_ne.mpr ?_
        intro e
        exact h.1 (beq_iff_eq.mpr e.symm)
      simp only [List.cons_append, List.lookup, hne2]
      refine ih ?_
      intro hany
      exact h.2 hany

/-- C8 (counterexample to the claim as stated).  In the
awaiting-clarification shape (pending `send_imessage` with an empty
`message` field), the non-empty incoming message `"yes"` does NOT fill
the missing field: it matches the confirmation grammar, which is
checked first, so the stored action is executed with the still-empty
body and the pending action is cleared. -/
theorem claim_C8_counterexample :
    stClarW.pendingAction = some paClarW
    ∧ List.lookup "message" paClarW.args = some (Json.str "")
    ∧ "yes" ≠ ""
    ∧ (processChat extW stClarW "yes").st.pendingAction = none
    ∧ (processChat extW stClarW "yes").evs =
        [Event.bridgeCall "send_imessage"
          [("to", Json.str "+15551234567"), ("message", Json.str "")]] :=
  ⟨rfl, rfl, by decide, rfl, rfl⟩

/-- C8 (amended).  In the awaiting-clarification shape, any non-empty
message that matches neither the confirmation nor the cancellation
grammar fills the missing `message` field with the message content,
keeps the pending action (now complete, i.e. awaiting confirmation),
performs no tool execution, and re-prompts for an explicit yes/no. -/
theorem claim_C8 (ext : ExtWorld) (st : SystemState) (p : PendingAction)
    (m : String) (hp : st.pendingAction = some p)
    (htool : p.tool = "send_imessage")
    (hmiss : List.lookup "message" p.args = some (Json.str ""))
    (_hm : m ≠ "")
    (hc1 : isConfirmation m = false) (hc2 : isCancellation m = false) :
    (processChat ext st m).st.pendingAction =
        some { p with args := setField p.args "message" (Json.str m) }
    ∧ List.lookup "message" (setField p.args "message" (Json.str m)) =
        some (Json.str m)
    ∧ (processChat ext st m).evs = []
    ∧ (processChat ext st m).out = .ok
        { message := "Send \"" ++ m ++ "\" to "
            ++ jStrD (List.lookup "to" p.args) "undefined" ++ "? *(yes/no)*"
          action := none, actions := none, scheduled := none }
    ∧ (processChat ext st m).st.history = lastN 50 (st.history ++ [userMsg m]) := by
  refine ⟨?_, lookup_setField p.args "message" (Json.str m), ?_, ?_, ?_⟩ <;>
    simp only [processChat, hp, hc1, hc2, hmiss, htool, beq_self_eq_true,
      Bool.and_true, Bool.true_and, Bool.and_self, Bool.false_eq_true,
      ite_false, ite_true, if_true, if_false]

theorem claim_C8_witness :
    stClarW.pendingAction = some paClarW
    ∧ paClarW.tool = "send_imessage"
    ∧ List.lookup "message" paClarW.args = some (Json.str "")
    ∧ "Dinner at 8?" ≠ ""
    ∧ isConfirmation "Dinner at 8?" = false
    ∧ isCancellation "Dinner at 8?" = false
    ∧ ((processChat extW stClarW "Dinner at 8?").st.pendingAction =
        some { paClarW with
          args := setField paClarW.args "message" (Json.str "Dinner at 8?") }
      ∧ List.lookup "message"
          (setField paClarW.args "message" (Json.str "Dinner at 8?")) =
          some (Json.str "Dinner at 8?")
      ∧ (processChat extW stClarW "Dinner at 8?").evs = []
      ∧ (processChat extW stClarW "Dinner at 8?").out = .ok
          { message := "Send \"Dinner at 8?\" to "
              ++ jStrD (List.lookup "to" paClarW.args) "undefined"
              ++ "? *(yes/no)*"
            action := none, actions := none, scheduled := none }
      ∧ (processChat extW stClarW "Dinner at 8?").st.history =
          lastN 50 (stClarW.history ++ [userMsg "Dinner at 8?"])) :=
  ⟨rfl, rfl, rfl, by decide, by decide, by decide,
   claim_C8 extW stClarW paClarW "Dinner at 8?" rfl rfl rfl (by decide)
     (by decide) (by decide)⟩

/-- C7 (counterexample to the claim as stated).  When the completion
service fails, the failure IS caught and converted into a 500
failed-chat-turn response — but the session state is NOT updated with
the user's message: the history update sits after the completion call,
so the turn leaves no trace in history. -/
theorem claim_C7_counterexample :
    (onRequest extFailW (initialState 0) "/agents/system-agent/chat" "POST"
        (some "hi") none).1 = HttpOut.serverErr "Claude API error: 500"
    ∧ (onRequest extFailW (initialState 0) "/agents/system-agent/chat" "POST"
        (some "hi") none).2.1.history = []
    ∧ userMsg "hi" ∉
        (onRequest extFailW (initialState 0) "/agents/system-agent/chat" "POST"
          (some "hi") none).2.1.history := by
  refine ⟨rfl, rfl, ?_⟩
  intro hmem
  rw [show (onRequest extFailW (initialState 0) "/agents/system-agent/chat"
      "POST" (some "hi") none).2.1.history = [] from rfl] at hmem
  exact absurd hmem (List.not_mem_nil _)

/-- C7 (amended).  A completion-service failure during a chat turn is
caught and converted into a failed-chat-turn HTTP 500 response (never
an unhandled exception), and the user's message is NOT recorded in
history.  If the turn began with no pending action, the session state
is entirely unchanged; if it fell through from a stale pending action
(server.ts 374: a message matching neither the confirmation nor the
cancellation grammar and not filling an empty `send_imessage` body),
the pending action has already been cleared by a state write committed
before the completion call, and that clearing is the only state
change.  (Turns answered from the pending-action state machine make no
completion call, so these two cases are exhaustive.) -/
theorem claim_C7 (ext : ExtWorld) (st : SystemState) (m e : String)
    (herr : ext.claude (ext.buildPrompt ext.tools st.preferences)
        (lastN 40 st.history ++ [userMsg m]) = .error e) :
    (st.pendingAction = none →
      (processChat ext st m).out = .error e
      ∧ (processChat ext st m).st = st
      ∧ (processChat ext st m).evs = [Event.claudeCall]
      ∧ ∀ path : String, endsWithStr path "/chat" = true →
          (checkRateLimit st.rateLimit ext.now).2.allowed = true →
          (onRequest ext st path "POST" (some m) none).1 = .serverErr e
          ∧ (onRequest ext st path "POST" (some m) none).2.1 =
              { st with rateLimit := some (checkRateLimit st.rateLimit ext.now).1 }
          ∧ (onRequest ext st path "POST" (some m) none).2.1.history = st.history)
    ∧ (∀ p : PendingAction, st.pendingAction = some p →
        isConfirmation m = false → isCancellation m = false →
        ¬(List.lookup "message" p.args = some (Json.str "")
          ∧ p.tool = "send_imessage") →
        (processChat ext st m).out = .error e
        ∧ (processChat ext st m).st = { st with pendingAction := none }
        ∧ (processChat ext st m).st.history = st.history
        ∧ (processChat ext st m).evs = [Event.claudeCall]
        ∧ ∀ path : String, endsWithStr path "/chat" = true →
            (checkRateLimit st.rateLimit ext.now).2.allowed = true →
            (onRequest ext st path "POST" (some m) none).1 = .serverErr e
            ∧ (onRequest ext st path "POST" (some m) none).2.1 =
                { st with
                  rateLimit := some (checkRateLimit st.rateLimit ext.now).1
                  pendingAction := none }
            ∧ (onRequest ext st path "POST" (some m) none).2.1.history =
                st.history) := by
  have hmain : ∀ s : SystemState, s.history = st.history →
      s.preferences = st.preferences →
      processChatMain ext s m =
        { out := .error e, st := s, evs := [Event.claudeCall] } := by
    intro s h2 h3
    simp only [processChatMain, h2, h3, herr]
  constructor
  · intro hpend
    have hrun : ∀ s : SystemState, s.pendingAction = none →
        s.history = st.history → s.preferences = st.preferences →
        processChat ext s m =
          { out := .error e, st := s, evs := [Event.claudeCall] } := by
      intro s h1 h2 h3
      simp only [processChat, h1]
      exact hmain s h2 h3
    refine ⟨?_, ?_, ?_, ?_⟩
    · rw [hrun st hpend rfl rfl]
    · rw [hrun st hpend rfl rfl]
    · rw [hrun st hpend rfl rfl]
    · intro path hpath hallow
      have hh : endsWithStr path "/health" = false :=
        endsWith_excl path "/chat" "/health" hpath (by refine ⟨?_, ?_⟩ <;> decide)
      simp only [onRequest, hh, hpath, hallow, Bool.and_true, Bool.true_and,
        Bool.not_true, Bool.false_eq_true, if_false, if_true, ite_false, ite_true]
      rw [hrun { st with rateLimit := some (checkRateLimit st.rateLimit ext.now).1 }
        hpend rfl rfl]
      refine ⟨?_, ?_, ?_⟩ <;> simp
  · intro p hp hc1 hc2 hclar
    have hrun2 : ∀ s : SystemState, s.pendingAction = some p →
        s.history = st.history → s.preferences = st.preferences →
        processChat ext s m =
          { out := .error e, st := { s with pendingAction := none }
            evs := [Event.claudeCall] } := by
      intro s h1 h2 h3
      simp only [processChat, h1, hc1, hc2, Bool.false_eq_true, if_false,
        ite_false]
      split
      · next hg =>
        exfalso
        rw [Bool.and_eq_true] at hg
        obtain ⟨hg1, hg2⟩ := hg
        have ht : p.tool = "send_imessage" := by simpa using hg2
        rcases hlk : List.lookup "message" p.args with _ | j
        · rw [hlk] at hg1
          simp at hg1
        · rcases j with _ | b | n | sv | a | o
          · rw [hlk] at hg1
            simp at hg1
          · rw [hlk] at hg1
            simp at hg1
          · rw [hlk] at hg1
            simp at hg1
          · rw [hlk] at hg1
            simp at hg1
            subst hg1
            exact hclar ⟨hlk, ht⟩
          · rw [hlk] at hg1
            simp at hg1
          · rw [hlk] at hg1
            simp at hg1
      · exact hmain { s with pendingAction := none } h2 h3
    refine ⟨?_, ?_, ?_, ?_, ?_⟩
    · rw [hrun2 st hp rfl rfl]
    · rw [hrun2 st hp rfl rfl]
    · rw [hrun2 st hp rfl rfl]
    · rw [hrun2 st hp rfl rfl]
    · intro path hpath hallow
      have hh : endsWithStr path "/health" = false :=
        endsWith_excl path "/chat" "/health" hpath (by refine ⟨?_, ?_⟩ <;> decide)
      simp only [onRequest, hh, hpath, hallow, Bool.and_true, Bool.true_and,
        Bool.not_true, Bool.false_eq_true, if_false, if_true, ite_false, ite_true]
      rw [hrun2 { st with rateLimit := some (checkRateLimit st.rateLimit ext.now).1 }
        hp rfl rfl]
      refine ⟨?_, ?_, ?_⟩ <;> simp

theorem claim_C7_witness :
    (initialState 0).pendingAction = none
    ∧ extFailW.claude
        (extFailW.buildPrompt extFailW.tools (initialState 0).preferences)
        (lastN 40 (initialState 0).history ++ [userMsg "hi"]) =
        .error "Claude API error: 500"
    ∧ (processChat extFailW (initialState 0) "hi").out =
        .error "Claude API error: 500"
    ∧ (processChat extFailW (initialState 0) "hi").st = initialState 0
    ∧ (processChat extFailW (initialState 0) "hi").evs = [Event.claudeCall]
    ∧ ((onRequest extFailW (initialState 0) "/agents/system-agent/chat" "POST"
          (some "hi") none).1 = HttpOut.serverErr "Claude API error: 500"
      ∧ (onRequest extFailW (initialState 0) "/agents/system-agent/chat" "POST"
          (some "hi") none).2.1 =
          { initialState 0 with
            rateLimit :=
              some (checkRateLimit (initialState 0).rateLimit extFailW.now).1 }
      ∧ (onRequest extFailW (initialState 0) "/agents/system-agent/chat" "POST"
          (some "hi") none).2.1.history = (initialState 0).history)
    ∧ stPendW.pendingAction = some paPendW
    ∧ isConfirmation "Dinner at 8?" = false
    ∧ isCancellation "Dinner at 8?" = false
    ∧ ¬(List.lookup "message" paPendW.args = some (Json.str "")
        ∧ paPendW.tool = "send_imessage")
    ∧ (processChat extFailW stPendW "Dinner at 8?").out =
        .error "Claude API error: 500"
    ∧ (processChat extFailW stPendW "Dinner at 8?").st =
        { stPendW with pendingAction := none }
    ∧ (processChat extFailW stPendW "Dinner at 8?").st.history = stPendW.history
    ∧ (processChat extFailW stPendW "Dinner at 8?").evs = [Event.claudeCall] :=
  have hclar : ¬(List.lookup "message" paPendW.args = some (Json.str "")
      ∧ paPendW.tool = "send_imessage") := by
    rintro ⟨hl, -⟩
    rw [show List.lookup "message" paPendW.args = some (Json.str "hi")
      from rfl] at hl
    simp at hl
  have h := (claim_C7 extFailW (initialState 0) "hi"
    "Claude API error: 500" rfl).1 rfl
  have h2 := (claim_C7 extFailW stPendW "Dinner at 8?"
    "Claude API error: 500" rfl).2 paPendW rfl (by decide) (by decide) hclar
  ⟨rfl, rfl, h.1, h.2.1, h.2.2.1,
   h.2.2.2 "/agents/system-agent/chat" (by decide) (by decide),
   rfl, by decide, by decide, hclar, h2.1, h2.2.1, h2.2.2.1, h2.2.2.2.1⟩

lemma rateRun_length (rl : Option RateLimit) (ts : List Int) :
    (rateRun rl ts).2.length = ts.length := by
  induction ts generalizing rl with
  | nil => rfl
  | cons t ts ih => simp [rateRun, ih]

lemma checkRateLimit_steady (c : Nat) (ra t : Int) (ht : t < ra) :
    checkRateLimit (some ⟨c, ra⟩) t =
      (⟨c + 1, ra⟩,
       { allowed := decide (c + 1 ≤ RATE_MAX)
         remaining := RATE_MAX - (c + 1)
         resetIn := max 0 (ra - t) }) := by
  have hge : ¬ (t ≥ ra) := by omega
  simp [checkRateLimit, hge]

lemma rateRun_steady (ts : List Int) (c : Nat) (ra : Int)
    (h : ∀ t ∈ ts, t < ra) :
    (rateRun (some ⟨c, ra⟩) ts).1 = some ⟨c + ts.length, ra⟩
    ∧ ∀ i r t, (rateRun (some ⟨c, ra⟩) ts).2[i]? = some r → ts[i]? = some t →
        r.allowed = decide (c + i + 1 ≤ RATE_MAX)
        ∧ r.remaining = RATE_MAX - (c + i + 1)
        ∧ r.resetIn = max 0 (ra - t) := by
  induction ts generalizing c with
  | nil => simp [rateRun]
  | cons t ts ih =>
    have ht : t < ra := h t (by simp)
    have hstep := checkRateLimit_steady c ra t ht
    have ih2 := ih (c + 1) (fun u hu => h u (by simp [hu]))
    constructor
    · simp only [rateRun, hstep, ih2.1, List.length_cons]
      congr 2
      omega
    · intro i r t2 hr htl
      cases i with
      | zero =>
        simp only [rateRun, hstep, List.getElem?_cons_zero, Option.some.injEq]
          at hr htl
        subst hr htl
        refine ⟨by congr 1, by congr 1, rfl⟩
      | succ i =>
        simp only [rateRun, hstep, List.getElem?_cons_succ] at hr htl
        have h3 := ih2.2 i r t2 hr htl
        refine ⟨?_, ?_, h3.2.2⟩
        · rw [h3.1]
          congr 2
          omega
        · rw [h3.2.1]
          congr 2
          omega

/-- C3.  Fixed-window rate limiting: starting a fresh window at `t0`
(no stored window, or the stored window expired), a run of calls all
inside the 60-second window counts up one per call; call `i+1` reports
`allowed = (i+1 ≤ 60)` — so the first 60 calls are allowed and the 61st
within the same window is not — together with
`remaining = max(0, 60-(i+1))` and `resetIn = max(0, resetAt - now)`;
the stored window after the run carries `count = number of calls` and
`resetAt = t0 + 60s` (so the first call of the run, at or after the
previous `resetAt`, reset the window and reported `allowed = true` with
`count = 1`). -/
theorem claim_C3 (rl0 : Option RateLimit) (t0 : Int) (ts : List Int)
    (h0 : rl0 = none ∨ ∃ rl, rl0 = some rl ∧ rl.resetAt ≤ t0)
    (hts : ∀ t ∈ ts, t < t0 + RATE_WINDOW) :
    (rateRun rl0 (t0 :: ts)).1 =
        some { count := ts.length + 1, resetAt := t0 + RATE_WINDOW }
    ∧ (rateRun rl0 (t0 :: ts)).2.length = ts.length + 1
    ∧ ∀ i r t, (rateRun rl0 (t0 :: ts)).2[i]? = some r →
        (t0 :: ts)[i]? = some t →
        r.allowed = decide (i + 1 ≤ RATE_MAX)
        ∧ r.remaining = RATE_MAX - (i + 1)
        ∧ r.resetIn = max 0 ((t0 + RATE_WINDOW) - t) := by
  have hfirst : checkRateLimit rl0 t0 =
      ({ count := 1, resetAt := t0 + RATE_WINDOW },
       { allowed := decide (1 ≤ RATE_MAX)
         remaining := RATE_MAX - 1
         resetIn := max 0 (t0 + RATE_WINDOW - t0) }) := by
    rcases h0 with rfl | ⟨rl, rfl, hle⟩
    · simp [checkRateLimit]
    · have : t0 ≥ rl.resetAt := hle
      simp [checkRateLimit, this]
  have hsteady := rateRun_steady ts 1 (t0 + RATE_WINDOW) hts
  refine ⟨?_, ?_, ?_⟩
  · simp only [rateRun, hfirst, hsteady.1, List.length_cons]
    congr 2
    omega
  · simp [rateRun_length]
  · intro i r t hr htl
    cases i with
    | zero =>
      simp only [rateRun, hfirst, List.getElem?_cons_zero, Option.some.injEq]
        at hr htl
      subst hr htl
      exact ⟨rfl, rfl, rfl⟩
    | succ i =>
      simp only [rateRun, hfirst, List.getElem?_cons_succ] at hr htl
      have h3 := hsteady.2 i r t hr htl
      refine ⟨?_, ?_, h3.2.2⟩
      · rw [h3.1]
        congr 2
        omega
      · rw [h3.2.1]
        congr 2
        omega

set_option maxRecDepth 4000 in
theorem claim_C3_witness :
    ((rateRun none ((0 : Int) :: List.replicate 60 (1000 : Int))).1 =
        some { count := (List.replicate 60 (1000 : Int)).length + 1,
               resetAt := 0 + RATE_WINDOW }
     ∧ (rateRun none ((0 : Int) :: List.replicate 60 (1000 : Int))).2.length =
         (List.replicate 60 (1000 : Int)).length + 1
     ∧ ∀ i r t,
         (rateRun none ((0 : Int) :: List.replicate 60 (1000 : Int))).2[i]? =
           some r →
         ((0 : Int) :: List.replicate 60 (1000 : Int))[i]? = some t →
         r.allowed = decide (i + 1 ≤ RATE_MAX)
         ∧ r.remaining = RATE_MAX - (i + 1)
         ∧ r.resetIn = max 0 ((0 + RATE_WINDOW) - t))
    ∧ ((rateRun none ((0 : Int) :: List.replicate 60 (1000 : Int))).2.map
        RateResult.allowed)[0]? = some true
    ∧ ((rateRun none ((0 : Int) :: List.replicate 60 (1000 : Int))).2.map
        RateResult.allowed)[60]? = some false :=
  ⟨claim_C3 none 0 (List.replicate 60 1000) (Or.inl rfl)
      (by
        intro t ht
        rw [List.eq_of_mem_replicate ht]
        decide),
   by decide, by decide⟩

/-- C4 (counterexample to the claim as stated).  On the WebSocket
transport, a well-formed authenticated chat frame arriving while the
session's rate-limit window is already exhausted is still processed:
the completion service is called tool, and no rate-limit check event
occurs at all — the check is simply absent from `onMessage`. -/
theorem claim_C4_counterexample :
    isChatInbound extWsW (Inbound.ws "WSCHAT") = true
    ∧ (checkRateLimit stFullW.rateLimit extWsW.now).2.allowed = false
    ∧ dispatchEvents extWsW stFullW (Inbound.ws "WSCHAT") = [Event.claudeCall]
    ∧ ∀ e ∈ dispatchEvents extWsW stFullW (Inbound.ws "WSCHAT"),
        e.isRateCheck = false := by
  refine ⟨rfl, by decide, rfl, ?_⟩
  intro e he
  rw [show dispatchEvents extWsW stFullW (Inbound.ws "WSCHAT") =
    [Event.claudeCall] from rfl] at he
  simp only [List.mem_singleton] at he
  subst he
  rfl

/-- C4 (amended).  On the HTTP transport, every `POST` to `/chat` runs
the rate-limit check before any other externally visible work (it is
the first event), and when the check reports `allowed = false` the
request ends with the throttling response, the only event is the failed
check (no completion call, no tool execution), and the only state
change is the stored rate-limit window.  (The WebSocket transport
performs no rate-limit check; see the counterexample.) -/
theorem claim_C4 (ext : ExtWorld) (st : SystemState) (path : String)
    (chatBody : Option String) (execBody : Option (String × Args))
    (hpath : endsWithStr path "/chat" = true) :
    (onRequest ext st path "POST" chatBody execBody).2.2.head? =
        some (Event.rateCheck (checkRateLimit st.rateLimit ext.now).2.allowed)
    ∧ ((checkRateLimit st.rateLimit ext.now).2.allowed = false →
        (onRequest ext st path "POST" chatBody execBody).1 =
          .rateLimited (((checkRateLimit st.rateLimit ext.now).2.resetIn + 999) / 1000)
        ∧ (onRequest ext st path "POST" chatBody execBody).2.2 =
            [Event.rateCheck false]
        ∧ (onRequest ext st path "POST" chatBody execBody).2.1 =
            { st with rateLimit := some (checkRateLimit st.rateLimit ext.now).1 }) := by
  have hh : endsWithStr path "/health" = false :=
    endsWith_excl path "/chat" "/health" hpath (by refine ⟨?_, ?_⟩ <;> decide)
  have hpg : ("POST" == "GET") = false := rfl
  have hpp : ("POST" == "POST") = true := rfl
  cases hal : (checkRateLimit st.rateLimit ext.now).2.allowed with
  | false =>
    refine ⟨?_, fun _ => ⟨?_, ?_, ?_⟩⟩ <;>
      simp only [onRequest, hh, hpath, hal, hpg, hpp, Bool.and_false,
        Bool.not_false, Bool.and_true, Bool.true_and, if_true, ite_true,
        Bool.false_eq_true, if_false, ite_false] <;> (try simp)
  | true =>
    refine ⟨?_, fun hc => absurd hc (by simp [hal])⟩
    simp only [onRequest, hh, hpath, hal, hpg, hpp, Bool.and_false, Bool.not_true,
      Bool.and_true, Bool.true_and, Bool.false_eq_true, if_false, ite_false,
      if_true, ite_true]
    split
    · simp
    · split <;> simp

theorem claim_C4_witness :
    endsWithStr "/agents/system-agent/chat" "/chat" = true
    ∧ (checkRateLimit stFullW.rateLimit extW.now).2.allowed = false
    ∧ (onRequest extW stFullW "/agents/system-agent/chat" "POST" (some "hi")
        none).2.2.head? =
        some (Event.rateCheck (checkRateLimit stFullW.rateLimit extW.now).2.allowed)
    ∧ (onRequest extW stFullW "/agents/system-agent/chat" "POST" (some "hi")
        none).1 =
        .rateLimited
          (((checkRateLimit stFullW.rateLimit extW.now).2.resetIn + 999) / 1000)
    ∧ (onRequest extW stFullW "/agents/system-agent/chat" "POST" (some "hi")
        none).2.2 = [Event.rateCheck false]
    ∧ (onRequest extW stFullW "/agents/system-agent/chat" "POST" (some "hi")
        none).2.1 =
        { stFullW with
          rateLimit := some (checkRateLimit stFullW.rateLimit extW.now).1 } :=
  have h := claim_C4 extW stFullW "/agents/system-agent/chat" (some "hi") none
    (by decide)
  have h2 := h.2 (by decide)
  ⟨by decide, by decide, h.1, h2.1, h2.2.1, h2.2.2⟩

lemma lastN_le {α : Type} (n : Nat) (l : List α) : (lastN n l).length ≤ n := by
  simp only [lastN, List.length_drop]
  omega

lemma scheduleAction_hist (ext : ExtWorld) (st : SystemState) (sj : Json) :
    (scheduleAction ext st sj).1.history = st.history := by
  simp [scheduleAction]

lemma runActions_hist (ext : ExtWorld) (message response text : String)
    (so : Option ScheduledInfo) (acts : List Json) :
    ∀ (st : SystemState) (acc : List ActionResult) (evs : List Event),
      st.history.length ≤ 50 →
      (runActions ext st message response text so acc evs acts).st.history.length
        ≤ 50 := by
  induction acts with
  | nil =>
    intro st acc evs _
    exact lastN_le 50 _
  | cons a rest ih =>
    intro st acc evs h
    simp only [runActions]
    split
    · split
    -- phoneExtract some/none
      · split
        · -- wantsGenerated: the second completion call
          split
          · exact h
          · exact h
        · exact lastN_le 50 _
      · exact ih st _ _ h
    · exact ih st _ _ h

lemma processChatMain_hist (ext : ExtWorld) (st : SystemState) (m : String)
    (h : st.history.length ≤ 50) :
    (processChatMain ext st m).st.history.length ≤ 50 := by
  simp only [processChatMain]
  split
  · exact h
  · apply runActions_hist
    repeat' split
    all_goals (try rw [scheduleAction_hist])
    all_goals simpa using h

lemma processChat_hist (ext : ExtWorld) (st : SystemState) (m : String)
    (h : st.history.length ≤ 50) :
    (processChat ext st m).st.history.length ≤ 50 := by
  simp only [processChat]
  split
  · split
    · exact lastN_le 50 _
    · split
      · exact lastN_le 50 _
      · split
        · exact lastN_le 50 _
        · exact processChatMain_hist ext _ m (by simpa using h)
  · exact processChatMain_hist ext _ m h

lemma executeScheduledAction_hist (ext : ExtWorld) (st : SystemState)
    (p : ScheduledAction) :
    (executeScheduledAction ext st p).1.history.length ≤ 50 := by
  simp only [executeScheduledAction]
  split
  · split
    · exact lastN_le 50 _
    · exact lastN_le 50 _
  · exact lastN_le 50 _


lemma onRequest_hist (ext : ExtWorld) (st : SystemState)
    (path method : String) (chatBody : Option String)
    (execBody : Option (String × Args)) (h : st.history.length ≤ 50) :
    (onRequest ext st path method chatBody execBody).2.1.history.length ≤ 50 := by
  by_cases h1 : (path == "/" && method == "GET") = true
  · simp only [onRequest, h1, if_true, ite_true]
    exact h
  have h1f := Bool.eq_false_iff.mpr h1
  by_cases h2 : endsWithStr path "/health" = true
  · simp only [onRequest, h1f, h2, Bool.false_eq_true, if_false, ite_false,
      if_true, ite_true]
    exact h
  have h2f := Bool.eq_false_iff.mpr h2
  cases hal : (checkRateLimit st.rateLimit ext.now).2.allowed with
  | false =>
    simp only [onRequest, h1f, h2f, hal, Bool.not_false, Bool.false_eq_true,
      if_false, ite_false, if_true, ite_true]
    exact h
  | true =>
    by_cases h3 : (endsWithStr path "/chat" && method == "POST") = true
    · cases chatBody with
      | none =>
        simp only [onRequest, h1f, h2f, hal, h3, Bool.not_true,
          Bool.false_eq_true, if_false, ite_false, if_true, ite_true]
        exact h
      | some m =>
        simp only [onRequest, h1f, h2f, hal, h3, Bool.not_true,
          Bool.false_eq_true, if_false, ite_false, if_true, ite_true]
        split
        · exact processChat_hist ext _ _ h
        · exact processChat_hist ext _ _ h
    have h3f := Bool.eq_false_iff.mpr h3
    by_cases h4 : (endsWithStr path "/reset" && method == "POST") = true
    · simp only [onRequest, h1f, h2f, hal, h3f, h4, Bool.not_true,
        Bool.false_eq_true, if_false, ite_false, if_true, ite_true]
      simp [resetState]
    have h4f := Bool.eq_false_iff.mpr h4
    by_cases h5 : (endsWithStr path "/state" && method == "GET") = true
    · simp only [onRequest, h1f, h2f, hal, h3f, h4f, h5, Bool.not_true,
        Bool.false_eq_true, if_false, ite_false, if_true, ite_true]
      exact h
    have h5f := Bool.eq_false_iff.mpr h5
    by_cases h6 : (endsWithStr path "/execute" && method == "POST") = true
    · cases execBody with
      | none =>
        simp only [onRequest, h1f, h2f, hal, h3f, h4f, h5f, h6, Bool.not_true,
          Bool.false_eq_true, if_false, ite_false, if_true, ite_true]
        exact h
      | some b =>
        simp only [onRequest, h1f, h2f, hal, h3f, h4f, h5f, h6, Bool.not_true,
          Bool.false_eq_true, if_false, ite_false, if_true, ite_true]
        exact h
    have h6f := Bool.eq_false_iff.mpr h6
    by_cases h7 : (endsWithStr path "/schedules" && method == "GET") = true
    · simp only [onRequest, h1f, h2f, hal, h3f, h4f, h5f, h6f, h7, Bool.not_true,
        Bool.false_eq_true, if_false, ite_false, if_true, ite_true]
      exact h
    have h7f := Bool.eq_false_iff.mpr h7
    by_cases h8 : (isDelSchedPath path && method == "DELETE") = true
    · simp only [onRequest, h1f, h2f, hal, h3f, h4f, h5f, h6f, h7f, h8,
        Bool.not_true, Bool.false_eq_true, if_false, ite_false, if_true, ite_true]
      exact h
    have h8f := Bool.eq_false_iff.mpr h8
    by_cases h9 : (endsWithStr path "/history" && method == "GET") = true
    · simp only [onRequest, h1f, h2f, hal, h3f, h4f, h5f, h6f, h7f, h8f, h9,
        Bool.not_true, Bool.false_eq_true, if_false, ite_false, if_true, ite_true]
      exact h
    have h9f := Bool.eq_false_iff.mpr h9
    by_cases h10 : (endsWithStr path "/clear" && method == "POST") = true
    · simp only [onRequest, h1f, h2f, hal, h3f, h4f, h5f, h6f, h7f, h8f, h9f,
        h10, Bool.not_true, Bool.false_eq_true, if_false, ite_false, if_true,
        ite_true]
      simp
    have h10f := Bool.eq_false_iff.mpr h10
    simp only [onRequest, h1f, h2f, hal, h3f, h4f, h5f, h6f, h7f, h8f, h9f,
      h10f, Bool.not_true, Bool.false_eq_true, if_false, ite_false, if_true,
      ite_true]
    exact h
lemma onMessage_hist (ext : ExtWorld) (st : SystemState) (raw : String)
    (h : st.history.length ≤ 50) :
    (onMessage ext st raw).2.1.history.length ≤ 50 := by
  simp only [onMessage]
  split
  · exact h
  · split
    · exact h
    · split
      · split
        · split
          · exact h
          · split
            · split
              · exact processChat_hist ext _ _ h
              · exact processChat_hist ext _ _ h
            · exact h
        · exact h
      · exact h

/-- C1.  History never exceeds 50 entries: every operation (HTTP
request, WebSocket frame, scheduled firing) preserves
`history.length ≤ 50` — each site that appends to history caps it with
`slice(-50)` — and hence every session run from the initial state keeps
the bound. -/
theorem claim_C1 :
    (∀ (st : SystemState) (op : Op), st.history.length ≤ 50 →
        (applyOp st op).history.length ≤ 50)
    ∧ ∀ (t0 : Int) (ops : List Op),
        (runOps (initialState t0) ops).history.length ≤ 50 := by
  have step : ∀ (st : SystemState) (op : Op), st.history.length ≤ 50 →
      (applyOp st op).history.length ≤ 50 := by
    intro st op h
    cases op with
    | http ext path method chatBody execBody =>
      exact onRequest_hist ext st path method chatBody execBody h
    | ws ext raw => exact onMessage_hist ext st raw h
    | fire ext payload => exact executeScheduledAction_hist ext st payload
  refine ⟨step, fun t0 ops => ?_⟩
  have run : ∀ (ops : List Op) (st : SystemState), st.history.length ≤ 50 →
      (ops.foldl applyOp st).history.length ≤ 50 := by
    intro ops
    induction ops with
    | nil => intro st h; exact h
    | cons op rest ih =>
      intro st h
      exact ih (applyOp st op) (step st op h)
  exact run ops (initialState t0) (by simp [initialState])

theorem claim_C1_witness :
    ((initialState 0).history.length ≤ 50 →
      (applyOp (initialState 0)
        (Op.fire extW { tool := "notify", args := [], description := "d" })
        ).history.length ≤ 50)
    ∧ (runOps (initialState 0)
        [Op.ws extW "WSCHAT",
         Op.http extW "/agents/system-agent/chat" "POST" (some "hi") none]
        ).history.length ≤ 50 :=
  ⟨claim_C1.1 (initialState 0)
      (Op.fire extW { tool := "notify", args := [], description := "d" }),
   claim_C1.2 0
     [Op.ws extW "WSCHAT",
      Op.http extW "/agents/system-agent/chat" "POST" (some "hi") none]⟩

-- Helper lemmas for the temporal-parser analysis (claim C5):
-- digit-character facts, word splitting, and leftmost-scan dispatch.

lemma digit_toLower (c : Char) (h : c.isDigit = true) : c.toLower = c := by
  simp [Char.isDigit] at h
  simp only [Char.toLower]
  split
  · next hc =>
    exfalso
    obtain ⟨h1, h2⟩ := h
    obtain ⟨h3, h4⟩ := hc
    have l1 : (48 : UInt32).toNat ≤ c.val.toNat := h1
    have l2 : c.val.toNat ≤ (57 : UInt32).toNat := h2
    have e1 : (48 : UInt32).toNat = 48 := rfl
    have e2 : (57 : UInt32).toNat = 57 := rfl
    have e3 : c.toNat = c.val.toNat := rfl
    omega
  · rfl

lemma digit_ne (c d : Char) (h : c.isDigit = true) (hd : d.isDigit = false) :
    c ≠ d := by
  intro he; subst he; rw [h] at hd; exact absurd hd (by simp)

lemma digit_not_ws (c : Char) (h : c.isDigit = true) :
    c.isWhitespace = false := by
  simp [Char.isDigit] at h
  obtain ⟨h1, h2⟩ := h
  have l1 : (48 : UInt32).toNat ≤ c.val.toNat := h1
  have l2 : c.val.toNat ≤ (57 : UInt32).toNat := h2
  simp [Char.isWhitespace]
  refine ⟨⟨⟨?_, ?_⟩, ?_⟩, ?_⟩ <;>
    (intro he; subst he; exact absurd l1 (by decide))

lemma map_toLower_digits (ds : List Char) (hds : ∀ c ∈ ds, c.isDigit = true) :
    ds.map Char.toLower = ds := by
  induction ds with
  | nil => rfl
  | cons c cs ih =>
    rw [List.map_cons, digit_toLower c (hds c (by simp)),
      ih (fun d hd => hds d (by simp [hd]))]

lemma trimChars_id (l : List Char) (c0 cl : Char) (rest : List Char)
    (hshape : l = c0 :: rest) (h0 : c0.isWhitespace = false)
    (hlast : l.getLast? = some cl) (hl : cl.isWhitespace = false) :
    trimChars l = l := by
  subst hshape
  unfold trimChars
  rw [List.dropWhile_cons]
  simp only [h0, Bool.false_eq_true, if_false, ite_false]
  cases hrev : (c0 :: rest).reverse with
  | nil => simp at hrev
  | cons d ds =>
    have hd : d = cl := by
      have := List.head?_reverse (c0 :: rest)
      rw [hrev, hlast] at this
      simpa using this
    subst hd
    have hdw : List.dropWhile Char.isWhitespace (d :: ds) = d :: ds := by
      rw [List.dropWhile_cons]
      simp [hl]
    rw [hdw, ← hrev, List.reverse_reverse]

lemma wsWordsAux_cons_nonws (c : Char) (hc : c.isWhitespace = false)
    (cs acc : List Char) : wsWordsAux (c :: cs) acc = wsWordsAux cs (c :: acc) := by
  simp [wsWordsAux, hc]

lemma wsWordsAux_cons_ws (c : Char) (hc : c.isWhitespace = true)
    (cs acc : List Char) (hacc : acc ≠ []) :
    wsWordsAux (c :: cs) acc = acc.reverse :: wsWordsAux cs [] := by
  cases acc with
  | nil => exact absurd rfl hacc
  | cons a as => simp [wsWordsAux, hc]

lemma wsWordsAux_run (ds : List Char) (hds : ∀ c ∈ ds, c.isWhitespace = false) :
    ∀ (rest acc : List Char),
      wsWordsAux (ds ++ rest) acc = wsWordsAux rest (ds.reverse ++ acc) := by
  induction ds with
  | nil => intro rest acc; simp
  | cons c cs ih =>
    intro rest acc
    rw [List.cons_append, wsWordsAux_cons_nonws c (hds c (by simp)),
      ih (fun d hd => hds d (by simp [hd]))]
    simp

lemma dropSpaces_cons_nonws (c : Char) (hc : c.isWhitespace = false)
    (l : List Char) : dropSpaces (c :: l) = c :: l := by
  unfold dropSpaces
  rw [List.dropWhile_cons]
  simp [hc]

lemma dropSpaces_cons_ws (c : Char) (hc : c.isWhitespace = true)
    (l : List Char) : dropSpaces (c :: l) = dropSpaces l := by
  unfold dropSpaces
  rw [List.dropWhile_cons]
  simp [hc]

lemma takeWhile_digits_run (ds : List Char) (hds : ∀ c ∈ ds, c.isDigit = true)
    (c : Char) (hc : c.isDigit = false) (rest : List Char) :
    (ds ++ c :: rest).takeWhile Char.isDigit = ds ∧
    (ds ++ c :: rest).dropWhile Char.isDigit = c :: rest := by
  induction ds with
  | nil =>
    constructor
    · rw [List.nil_append, List.takeWhile_cons]
      simp [hc]
    · rw [List.nil_append, List.dropWhile_cons]
      simp [hc]
  | cons d ds2 ih =>
    have hd : d.isDigit = true := hds d (by simp)
    obtain ⟨ih1, ih2⟩ := ih (fun e he => hds e (by simp [he]))
    constructor
    · rw [List.cons_append, List.takeWhile_cons]
      simp [hd, ih1]
    · rw [List.cons_append, List.dropWhile_cons]
      simp [hd, ih2]

lemma digits1_run (d : Char) (ds : List Char) (hd : d.isDigit = true)
    (hds : ∀ c ∈ ds, c.isDigit = true) (c : Char) (hc : c.isDigit = false)
    (rest : List Char) :
    digits1 ((d :: ds) ++ c :: rest) = some (d :: ds, c :: rest) := by
  have hall : ∀ e ∈ d :: ds, e.isDigit = true := by
    intro e he
    rcases List.mem_cons.mp he with h | h
    · subst h; exact hd
    · exact hds e h
  obtain ⟨h1, h2⟩ := takeWhile_digits_run (d :: ds) hall c hc rest
  unfold digits1
  rw [h1, h2]

lemma litM_head_ne (p : Char) (ps : List Char) (c : Char) (cs : List Char)
    (hc : c ≠ p) : litM (p :: ps) (c :: cs) = none := by
  simp [litM, hc]

lemma litM_every_exact (rest : List Char) :
    litM ("every".data) ('e' :: 'v' :: 'e' :: 'r' :: 'y' :: rest) = some rest := rfl

lemma litM_in_exact (rest : List Char) :
    litM ("in".data) ('i' :: 'n' :: rest) = some rest := rfl

lemma litM_every_second (c : Char) (cs : List Char) (hc : c ≠ 'v') :
    litM ("every".data) ('e' :: c :: cs) = none := by
  rw [show ("every".data) = 'e' :: 'v' :: 'e' :: 'r' :: 'y' :: [] from rfl]
  simp [litM, hc]

lemma matchDailyAt_head_ne (word : List Char) (c : Char) (cs : List Char)
    (hc : c ≠ 'e') : matchDailyAt word (c :: cs) = none := by
  unfold matchDailyAt
  rw [show ("every".data) = 'e' :: 'v' :: 'e' :: 'r' :: 'y' :: [] from rfl,
    litM_head_ne 'e' _ c cs hc]

lemma matchDailyAt_none_of_litM (word s : List Char)
    (h : litM ("every".data) s = none) : matchDailyAt word s = none := by
  unfold matchDailyAt
  rw [h]

lemma matchDailyAt_every_word_none (word rest : List Char)
    (h : litM word (dropSpaces rest) = none) :
    matchDailyAt word ('e' :: 'v' :: 'e' :: 'r' :: 'y' :: rest) = none := by
  have he : litM ['e', 'v', 'e', 'r', 'y'] ('e' :: 'v' :: 'e' :: 'r' :: 'y' :: rest) =
      some rest := rfl
  simp only [matchDailyAt, he, h]

lemma everyInner_head_ne (word : List Char) (c : Char) (cs : List Char)
    (hc : c ≠ 'e') :
    (litM ("every".data) (c :: cs)).bind
      (fun r => litM word (dropSpaces r)) = none := by
  rw [show ("every".data) = 'e' :: 'v' :: 'e' :: 'r' :: 'y' :: [] from rfl,
    litM_head_ne 'e' _ c cs hc]
  rfl

lemma everyInner_none_of_litM (word s : List Char)
    (h : litM ("every".data) s = none) :
    (litM ("every".data) s).bind (fun r => litM word (dropSpaces r)) = none := by
  rw [h]
  rfl

lemma everyInner_word_none (word rest : List Char)
    (h : litM word (dropSpaces rest) = none) :
    (litM ("every".data) ('e' :: 'v' :: 'e' :: 'r' :: 'y' :: rest)).bind
      (fun r => litM word (dropSpaces r)) = none := by
  rw [litM_every_exact]
  simpa using h

lemma matchEveryNAt_head_ne (c : Char) (cs : List Char) (hc : c ≠ 'e') :
    matchEveryNAt (c :: cs) = none := by
  unfold matchEveryNAt
  rw [show ("every".data) = 'e' :: 'v' :: 'e' :: 'r' :: 'y' :: [] from rfl,
    litM_head_ne 'e' _ c cs hc]
  rfl

lemma matchEveryNAt_none_of_litM (s : List Char)
    (h : litM ("every".data) s = none) : matchEveryNAt s = none := by
  unfold matchEveryNAt
  rw [h]
  rfl

lemma matchRelAt_head_ne (c : Char) (cs : List Char) (hc : c ≠ 'i') :
    matchRelAt (c :: cs) = none := by
  unfold matchRelAt
  rw [show ("in".data) = 'i' :: 'n' :: [] from rfl, litM_head_ne 'i' _ c cs hc]
  rfl

lemma scanFor_cons_some {α : Type} (m : List Char → Option α) (c : Char)
    (cs : List Char) (r : α) (h : m (c :: cs) = some r) :
    scanFor m (c :: cs) = some r := by
  simp [scanFor, h]

lemma scanFor_cons_none {α : Type} (m : List Char → Option α) (c : Char)
    (cs : List Char) (h : m (c :: cs) = none) :
    scanFor m (c :: cs) = scanFor m cs := by
  simp [scanFor, h]

lemma scanFor_skip {α : Type} (m : List Char → Option α) (pre tail : List Char)
    (h : ∀ s, s <:+ pre → s ≠ [] → m (s ++ tail) = none) :
    scanFor m (pre ++ tail) = scanFor m tail := by
  induction pre with
  | nil => rfl
  | cons c cs ih =>
    have h0 : m ((c :: cs) ++ tail) = none :=
      h (c :: cs) (List.suffix_refl _) (by simp)
    rw [List.cons_append,
      scanFor_cons_none m c (cs ++ tail) (by rw [← List.cons_append]; exact h0)]
    exact ih (fun s hs hne => h s (hs.trans (List.suffix_cons c cs)) hne)

lemma suffix_digits {ds s : List Char} (hds : ∀ c ∈ ds, c.isDigit = true)
    (h : s <:+ ds) (hne : s ≠ []) :
    ∃ d s2, s = d :: s2 ∧ d.isDigit = true := by
  cases s with
  | nil => exact absurd rfl hne
  | cons d s2 => exact ⟨d, s2, rfl, hds d (h.subset (by simp))⟩

lemma wsWords_three (w1 ds us : List Char)
    (h1 : ∀ c ∈ w1, c.isWhitespace = false) (h1ne : w1 ≠ [])
    (hds : ∀ c ∈ ds, c.isWhitespace = false) (hdsne : ds ≠ [])
    (hus : ∀ c ∈ us, c.isWhitespace = false) (husne : us ≠ []) :
    wsWords (w1 ++ ' ' :: (ds ++ ' ' :: us)) = [w1, ds, us] := by
  unfold wsWords
  rw [wsWordsAux_run w1 h1 _ [],
    wsWordsAux_cons_ws ' ' (by decide) _ _ (by simp [h1ne]),
    wsWordsAux_run ds hds _ [],
    wsWordsAux_cons_ws ' ' (by decide) _ _ (by simp [hdsne])]
  have hlast : wsWordsAux us [] = [us] := by
    have h := wsWordsAux_run us hus [] []
    rw [List.append_nil] at h
    rw [h]
    have : (us.reverse ++ []).isEmpty = false := by
      simp [List.isEmpty_iff, husne]
    simp [wsWordsAux, this]
    exact husne
  rw [hlast]
  simp


lemma getLast_of_ne_nil (l : List Char) (hne : l ≠ []) :
    ∃ c, l.getLast? = some c ∧ c ∈ l := by
  cases h : l.getLast? with
  | none => exact absurd (List.getLast?_eq_none_iff.mp h) hne
  | some c => exact ⟨c, rfl, List.mem_of_mem_getLast? h⟩

lemma skip_pre_ne_e {α : Type} (m : List Char → Option α) (pre tail : List Char)
    (hpre : ∀ c ∈ pre, c ≠ 'e')
    (hm : ∀ c cs, c ≠ 'e' → m (c :: cs) = none) :
    scanFor m (pre ++ tail) = scanFor m tail := by
  apply scanFor_skip
  intro s hs hne
  cases s with
  | nil => exact absurd rfl hne
  | cons c s2 => exact hm c (s2 ++ tail) (hpre c (hs.subset (by simp)))

lemma in_pre_ne_e (ds : List Char) (hds : ∀ c ∈ ds, c.isDigit = true) :
    ∀ c ∈ 'i' :: 'n' :: ' ' :: ds, c ≠ 'e' := by
  intro c hc
  rcases List.mem_cons.mp hc with rfl | hc
  · decide
  rcases List.mem_cons.mp hc with rfl | hc
  · decide
  rcases List.mem_cons.mp hc with rfl | hc
  · decide
  exact digit_ne c 'e' (hds c hc) (by decide)

lemma skip_every_pre {α : Type} (m : List Char → Option α) (ds tail : List Char)
    (hds : ∀ c ∈ ds, c.isDigit = true)
    (hfull : m (('e' :: 'v' :: 'e' :: 'r' :: 'y' :: ' ' :: ds) ++ tail) = none)
    (her : m (('e' :: 'r' :: 'y' :: ' ' :: ds) ++ tail) = none)
    (hm : ∀ c cs, c ≠ 'e' → m (c :: cs) = none) :
    scanFor m (('e' :: 'v' :: 'e' :: 'r' :: 'y' :: ' ' :: ds) ++ tail) =
      scanFor m tail := by
  apply scanFor_skip
  intro s hs hne
  rcases List.suffix_cons_iff.mp hs with rfl | hs
  · exact hfull
  rcases List.suffix_cons_iff.mp hs with rfl | hs
  · exact hm 'v' _ (by decide)
  rcases List.suffix_cons_iff.mp hs with rfl | hs
  · exact her
  rcases List.suffix_cons_iff.mp hs with rfl | hs
  · exact hm 'r' _ (by decide)
  rcases List.suffix_cons_iff.mp hs with rfl | hs
  · exact hm 'y' _ (by decide)
  rcases List.suffix_cons_iff.mp hs with rfl | hs
  · exact hm ' ' _ (by decide)
  obtain ⟨d, s2, rfl, hd⟩ := suffix_digits hds hs hne
  exact hm d _ (digit_ne d 'e' hd (by decide))

lemma strEqOfData (x y : String) (h : x.data = y.data) : x = y := by
  cases x
  cases y
  exact congrArg String.mk h

theorem parseWhen_in_unit (dp : String → Option Int) (now : Int) (ds : List Char)
    (us : String) (mult : Int)
    (hne : ds ≠ []) (hds : ∀ c ∈ ds, c.isDigit = true)
    (husne : us.data ≠ [])
    (husnws : ∀ c ∈ us.data, c.isWhitespace = false)
    (huslow : us.data.map Char.toLower = us.data)
    (hua : unitAlt us.data = some mult)
    (tday : scanFor (matchDailyAt ("day".data)) (' ' :: us.data) = none)
    (thour : scanFor (fun t => (litM ("every".data) t).bind
        (fun r => litM ("hour".data) (dropSpaces r))) (' ' :: us.data) = none)
    (tmorn : scanFor (fun t => (litM ("every".data) t).bind
        (fun r => litM ("morning".data) (dropSpaces r))) (' ' :: us.data) = none)
    (teve : scanFor (fun t => (litM ("every".data) t).bind
        (fun r => litM ("evening".data) (dropSpaces r))) (' ' :: us.data) = none)
    (tevn : scanFor matchEveryNAt (' ' :: us.data) = none)
    (twd : scanFor (matchDailyAt ("weekday".data)) (' ' :: us.data) = none) :
    parseWhen dp now ("in " ++ String.mk ds ++ " " ++ us) =
      .instant (now + (digitsVal ds : Int) * mult) := by
  obtain ⟨d0, ds0, hshape⟩ : ∃ a l, ds = a :: l := by
    cases ds with
    | nil => exact absurd rfl hne
    | cons a l => exact ⟨a, l, rfl⟩
  obtain ⟨u0, us0, hushape⟩ : ∃ a l, us.data = a :: l := by
    cases h : us.data with
    | nil => exact absurd h husne
    | cons a l => exact ⟨a, l, rfl⟩
  have hdata : ("in " ++ String.mk ds ++ " " ++ us).data =
      'i' :: 'n' :: ' ' :: (ds ++ ' ' :: us.data) := by
    rw [String.data_append, String.data_append, String.data_append,
      show ("in ".data) = ['i', 'n', ' '] from rfl,
      show (" ".data) = [' '] from rfl]
    simp [List.append_assoc]
  have hlow : (lowerStr ("in " ++ String.mk ds ++ " " ++ us)).data =
      'i' :: 'n' :: ' ' :: (ds ++ ' ' :: us.data) := by
    show ("in " ++ String.mk ds ++ " " ++ us).data.map Char.toLower = _
    rw [hdata]
    simp only [List.map_cons, List.map_append]
    rw [map_toLower_digits ds hds, huslow,
      show 'i'.toLower = 'i' from rfl, show 'n'.toLower = 'n' from rfl,
      show ' '.toLower = ' ' from rfl]
  have hnwsds : ∀ c ∈ ds, c.isWhitespace = false :=
    fun c hc => digit_not_ws c (hds c hc)
  have htrim : (jsTrim ("in " ++ String.mk ds ++ " " ++ us)).data =
      'i' :: 'n' :: ' ' :: (ds ++ ' ' :: us.data) := by
    show trimChars (("in " ++ String.mk ds ++ " " ++ us).data) = _
    rw [hdata]
    obtain ⟨cl, hcl, hclm⟩ := getLast_of_ne_nil us.data husne
    apply trimChars_id _ 'i' cl ('n' :: ' ' :: (ds ++ ' ' :: us.data)) rfl
      (by decide)
    · show (('i' :: 'n' :: ' ' :: ds) ++ (' ' :: us.data)).getLast? = some cl
      rw [List.getLast?_append,
        show (' ' :: us.data) = [' '] ++ us.data from rfl,
        List.getLast?_append, hcl]
      rfl
    · exact husnws cl hclm
  have hcron : cronTest (jsTrim ("in " ++ String.mk ds ++ " " ++ us)).data
      = false := by
    rw [htrim]
    have hw : wsWords ('i' :: 'n' :: ' ' :: (ds ++ ' ' :: us.data)) =
        [['i', 'n'], ds, us.data] :=
      wsWords_three ['i', 'n'] ds us.data (by decide) (by decide)
        hnwsds hne husnws husne
    simp [cronTest, hw]
  have hprene := in_pre_ne_e ds hds
  have hsplit : 'i' :: 'n' :: ' ' :: (ds ++ ' ' :: us.data) =
      ('i' :: 'n' :: ' ' :: ds) ++ (' ' :: us.data) := by simp
  have hday : scanFor (matchDailyAt ("day".data))
      ((lowerStr ("in " ++ String.mk ds ++ " " ++ us)).data) = none := by
    rw [hlow, hsplit,
      skip_pre_ne_e _ _ _ hprene
        (fun c cs hc => matchDailyAt_head_ne _ c cs hc)]
    exact tday
  have hwd : scanFor (matchDailyAt ("weekday".data))
      ((lowerStr ("in " ++ String.mk ds ++ " " ++ us)).data) = none := by
    rw [hlow, hsplit,
      skip_pre_ne_e _ _ _ hprene
        (fun c cs hc => matchDailyAt_head_ne _ c cs hc)]
    exact twd
  have hevn : scanFor matchEveryNAt
      ((lowerStr ("in " ++ String.mk ds ++ " " ++ us)).data) = none := by
    rw [hlow, hsplit,
      skip_pre_ne_e _ _ _ hprene
        (fun c cs hc => matchEveryNAt_head_ne c cs hc)]
    exact tevn
  have hhour : testEveryWord ("hour".data)
      ((lowerStr ("in " ++ String.mk ds ++ " " ++ us)).data) = false := by
    have h := skip_pre_ne_e (fun t => (litM ("every".data) t).bind
        (fun r => litM ("hour".data) (dropSpaces r)))
      ('i' :: 'n' :: ' ' :: ds) (' ' :: us.data) hprene
      (fun c cs hc => everyInner_head_ne _ c cs hc)
    rw [thour] at h
    simp only [testEveryWord, hlow, hsplit, h, Option.isSome_none]
  have hmorn : testEveryWord ("morning".data)
      ((lowerStr ("in " ++ String.mk ds ++ " " ++ us)).data) = false := by
    have h := skip_pre_ne_e (fun t => (litM ("every".data) t).bind
        (fun r => litM ("morning".data) (dropSpaces r)))
      ('i' :: 'n' :: ' ' :: ds) (' ' :: us.data) hprene
      (fun c cs hc => everyInner_head_ne _ c cs hc)
    rw [tmorn] at h
    simp only [testEveryWord, hlow, hsplit, h, Option.isSome_none]
  have heve : testEveryWord ("evening".data)
      ((lowerStr ("in " ++ String.mk ds ++ " " ++ us)).data) = false := by
    have h := skip_pre_ne_e (fun t => (litM ("every".data) t).bind
        (fun r => litM ("evening".data) (dropSpaces r)))
      ('i' :: 'n' :: ' ' :: ds) (' ' :: us.data) hprene
      (fun c cs hc => everyInner_head_ne _ c cs hc)
    rw [teve] at h
    simp only [testEveryWord, hlow, hsplit, h, Option.isSome_none]
  have hrel : scanFor matchRelAt
      ((lowerStr ("in " ++ String.mk ds ++ " " ++ us)).data) =
      some (ds, mult) := by
    rw [hlow]
    apply scanFor_cons_some
    have h2 : dropSpaces (ds ++ ' ' :: us.data) = ds ++ ' ' :: us.data := by
      rw [hshape]
      exact dropSpaces_cons_nonws d0
        (digit_not_ws d0 (hds d0 (by rw [hshape]; simp))) _
    have h3 : digits1 (ds ++ ' ' :: us.data) = some (ds, ' ' :: us.data) := by
      rw [hshape]
      exact digits1_run d0 ds0 (hds d0 (by rw [hshape]; simp))
        (fun c hc => hds c (by rw [hshape]; simp [hc])) ' ' (by decide) _
    have h4 : dropSpaces (' ' :: us.data) = us.data := by
      rw [dropSpaces_cons_ws ' ' (by decide), hushape]
      exact dropSpaces_cons_nonws u0 (husnws u0 (by rw [hushape]; simp)) _
    show matchRelAt ('i' :: 'n' :: (' ' :: (ds ++ ' ' :: us.data))) =
      some (ds, mult)
    unfold matchRelAt
    rw [litM_in_exact, Option.some_bind]
    have h1 : spaces1 (' ' :: (ds ++ ' ' :: us.data)) =
        some (dropSpaces (ds ++ ' ' :: us.data)) := by
      simp [spaces1]
    rw [h1, Option.some_bind, h2, h3, Option.some_bind, h4, hua]
    rfl
  simp only [parseWhen, hcron, hday, hhour, hmorn, heve, hevn, hwd, hrel,
    Bool.false_eq_true, if_false, ite_false]

theorem parseWhen_in_seconds (dp : String → Option Int) (now : Int)
    (ds : List Char) (hne : ds ≠ []) (hds : ∀ c ∈ ds, c.isDigit = true) :
    parseWhen dp now ("in " ++ String.mk ds ++ " seconds") =
      .instant (now + (digitsVal ds : Int) * 1000) := by
  rw [strEqOfData ("in " ++ String.mk ds ++ " seconds")
      ("in " ++ String.mk ds ++ " " ++ "seconds") (by
    simp [String.data_append])]
  exact parseWhen_in_unit dp now ds "seconds" 1000 hne hds (by decide)
    (by decide) (by decide) (by decide) (by decide) (by decide) (by decide)
    (by decide) (by decide) (by decide)

theorem parseWhen_in_minutes (dp : String → Option Int) (now : Int)
    (ds : List Char) (hne : ds ≠ []) (hds : ∀ c ∈ ds, c.isDigit = true) :
    parseWhen dp now ("in " ++ String.mk ds ++ " minutes") =
      .instant (now + (digitsVal ds : Int) * 60000) := by
  rw [strEqOfData ("in " ++ String.mk ds ++ " minutes")
      ("in " ++ String.mk ds ++ " " ++ "minutes") (by
    simp [String.data_append])]
  exact parseWhen_in_unit dp now ds "minutes" 60000 hne hds (by decide)
    (by decide) (by decide) (by decide) (by decide) (by decide) (by decide)
    (by decide) (by decide) (by decide)

theorem parseWhen_in_hours (dp : String → Option Int) (now : Int)
    (ds : List Char) (hne : ds ≠ []) (hds : ∀ c ∈ ds, c.isDigit = true) :
    parseWhen dp now ("in " ++ String.mk ds ++ " hours") =
      .instant (now + (digitsVal ds : Int) * 3600000) := by
  rw [strEqOfData ("in " ++ String.mk ds ++ " hours")
      ("in " ++ String.mk ds ++ " " ++ "hours") (by
    simp [String.data_append])]
  exact parseWhen_in_unit dp now ds "hours" 3600000 hne hds (by decide)
    (by decide) (by decide) (by decide) (by decide) (by decide) (by decide)
    (by decide) (by decide) (by decide)

theorem parseWhen_in_days (dp : String → Option Int) (now : Int)
    (ds : List Char) (hne : ds ≠ []) (hds : ∀ c ∈ ds, c.isDigit = true) :
    parseWhen dp now ("in " ++ String.mk ds ++ " days") =
      .instant (now + (digitsVal ds : Int) * 86400000) := by
  rw [strEqOfData ("in " ++ String.mk ds ++ " days")
      ("in " ++ String.mk ds ++ " " ++ "days") (by
    simp [String.data_append])]
  exact parseWhen_in_unit dp now ds "days" 86400000 hne hds (by decide)
    (by decide) (by decide) (by decide) (by decide) (by decide) (by decide)
    (by decide) (by decide) (by decide)

theorem parseWhen_everyN_hours (dp : String → Option Int) (now : Int)
    (ds : List Char) (hne : ds ≠ []) (hds : ∀ c ∈ ds, c.isDigit = true) :
    parseWhen dp now ("every " ++ String.mk ds ++ " hours") =
      .cron ("0 */" ++ String.mk ds ++ " * * *") := by
  obtain ⟨d0, ds0, hshape⟩ : ∃ a l, ds = a :: l := by
    cases ds with
    | nil => exact absurd rfl hne
    | cons a l => exact ⟨a, l, rfl⟩
  have hdata : ("every " ++ String.mk ds ++ " hours").data =
      'e' :: 'v' :: 'e' :: 'r' :: 'y' :: ' ' :: (ds ++ ' ' :: "hours".data) := by
    rw [String.data_append, String.data_append,
      show ("every ".data) = ['e', 'v', 'e', 'r', 'y', ' '] from rfl,
      show (" hours".data) = ' ' :: "hours".data from rfl]
    simp [List.append_assoc]
  have hlow : (lowerStr ("every " ++ String.mk ds ++ " hours")).data =
      'e' :: 'v' :: 'e' :: 'r' :: 'y' :: ' ' :: (ds ++ ' ' :: "hours".data) := by
    show ("every " ++ String.mk ds ++ " hours").data.map Char.toLower = _
    rw [hdata]
    simp only [List.map_cons, List.map_append]
    rw [map_toLower_digits ds hds,
      show 'e'.toLower = 'e' from rfl, show 'v'.toLower = 'v' from rfl,
      show 'r'.toLower = 'r' from rfl, show 'y'.toLower = 'y' from rfl,
      show ' '.toLower = ' ' from rfl]
    rfl
  have hnwsds : ∀ c ∈ ds, c.isWhitespace = false :=
    fun c hc => digit_not_ws c (hds c hc)
  have htrim : (jsTrim ("every " ++ String.mk ds ++ " hours")).data =
      'e' :: 'v' :: 'e' :: 'r' :: 'y' :: ' ' :: (ds ++ ' ' :: "hours".data) := by
    show trimChars (("every " ++ String.mk ds ++ " hours").data) = _
    rw [hdata]
    apply trimChars_id _ 'e' 's'
      ('v' :: 'e' :: 'r' :: 'y' :: ' ' :: (ds ++ ' ' :: "hours".data)) rfl
      (by decide)
    · show ((('e' :: 'v' :: 'e' :: 'r' :: 'y' :: ' ' :: ds) ++
        (' ' :: "hours".data)).getLast?) = some 's'
      rw [List.getLast?_append]
      rfl
    · decide
  have hcron : cronTest (jsTrim ("every " ++ String.mk ds ++ " hours")).data
      = false := by
    rw [htrim]
    have hw : wsWords ('e' :: 'v' :: 'e' :: 'r' :: 'y' :: ' ' ::
        (ds ++ ' ' :: "hours".data)) =
        [['e', 'v', 'e', 'r', 'y'], ds, "hours".data] :=
      wsWords_three ['e', 'v', 'e', 'r', 'y'] ds ("hours".data) (by decide)
        (by decide) hnwsds hne (by decide) (by decide)
    simp [cronTest, hw]
  have hdropds : dropSpaces (' ' :: (ds ++ ' ' :: "hours".data)) =
      ds ++ ' ' :: "hours".data := by
    rw [dropSpaces_cons_ws ' ' (by decide), hshape]
    exact dropSpaces_cons_nonws d0
      (digit_not_ws d0 (hds d0 (by rw [hshape]; simp))) _
  have hsplit : 'e' :: 'v' :: 'e' :: 'r' :: 'y' :: ' ' ::
      (ds ++ ' ' :: "hours".data) =
      ('e' :: 'v' :: 'e' :: 'r' :: 'y' :: ' ' :: ds) ++
        (' ' :: "hours".data) := by simp
  have hday : scanFor (matchDailyAt ("day".data))
      ((lowerStr ("every " ++ String.mk ds ++ " hours")).data) = none := by
    rw [hlow, hsplit, skip_every_pre _ ds _ hds
      (by
        show matchDailyAt ("day".data)
          ('e' :: 'v' :: 'e' :: 'r' :: 'y' :: (' ' :: (ds ++ ' ' :: "hours".data)))
          = none
        apply matchDailyAt_every_word_none
        rw [hdropds, hshape]
        exact litM_head_ne 'd' _ d0 _
          (digit_ne d0 'd' (hds d0 (by rw [hshape]; simp)) (by decide)))
      (matchDailyAt_none_of_litM _ _ (litM_every_second 'r' _ (by decide)))
      (fun c cs hc => matchDailyAt_head_ne _ c cs hc)]
    decide
  have hwd : scanFor (matchDailyAt ("weekday".data))
      ((lowerStr ("every " ++ String.mk ds ++ " hours")).data) = none := by
    rw [hlow, hsplit, skip_every_pre _ ds _ hds
      (by
        show matchDailyAt ("weekday".data)
          ('e' :: 'v' :: 'e' :: 'r' :: 'y' :: (' ' :: (ds ++ ' ' :: "hours".data)))
          = none
        apply matchDailyAt_every_word_none
        rw [hdropds, hshape]
        exact litM_head_ne 'w' _ d0 _
          (digit_ne d0 'w' (hds d0 (by rw [hshape]; simp)) (by decide)))
      (matchDailyAt_none_of_litM _ _ (litM_every_second 'r' _ (by decide)))
      (fun c cs hc => matchDailyAt_head_ne _ c cs hc)]
    decide
  have hhour : testEveryWord ("hour".data)
      ((lowerStr ("every " ++ String.mk ds ++ " hours")).data) = false := by
    have h := skip_every_pre (fun t => (litM ("every".data) t).bind
        (fun r => litM ("hour".data) (dropSpaces r))) ds (' ' :: "hours".data)
      hds
      (by
        show (litM ("every".data)
            ('e' :: 'v' :: 'e' :: 'r' :: 'y' ::
              (' ' :: (ds ++ ' ' :: "hours".data)))).bind
          (fun r => litM ("hour".data) (dropSpaces r)) = none
        apply everyInner_word_none
        rw [hdropds, hshape]
        exact litM_head_ne 'h' _ d0 _
          (digit_ne d0 'h' (hds d0 (by rw [hshape]; simp)) (by decide)))
      (everyInner_none_of_litM _ _ (litM_every_second 'r' _ (by decide)))
      (fun c cs hc => everyInner_head_ne _ c cs hc)
    rw [show scanFor (fun t => (litM ("every".data) t).bind
        (fun r => litM ("hour".data) (dropSpaces r))) (' ' :: "hours".data) =
        none from by decide] at h
    simp only [testEveryWord, hlow, hsplit, h, Option.isSome_none]
  have hmorn : testEveryWord ("morning".data)
      ((lowerStr ("every " ++ String.mk ds ++ " hours")).data) = false := by
    have h := skip_every_pre (fun t => (litM ("every".data) t).bind
        (fun r => litM ("morning".data) (dropSpaces r))) ds (' ' :: "hours".data)
      hds
      (by
        show (litM ("every".data)
            ('e' :: 'v' :: 'e' :: 'r' :: 'y' ::
              (' ' :: (ds ++ ' ' :: "hours".data)))).bind
          (fun r => litM ("morning".data) (dropSpaces r)) = none
        apply everyInner_word_none
        rw [hdropds, hshape]
        exact litM_head_ne 'm' _ d0 _
          (digit_ne d0 'm' (hds d0 (by rw [hshape]; simp)) (by decide)))
      (everyInner_none_of_litM _ _ (litM_every_second 'r' _ (by decide)))
      (fun c cs hc => everyInner_head_ne _ c cs hc)
    rw [show scanFor (fun t => (litM ("every".data) t).bind
        (fun r => litM ("morning".data) (dropSpaces r))) (' ' :: "hours".data) =
        none from by decide] at h
    simp only [testEveryWord, hlow, hsplit, h, Option.isSome_none]
  have heve : testEveryWord ("evening".data)
      ((lowerStr ("every " ++ String.mk ds ++ " hours")).data) = false := by
    have h := skip_every_pre (fun t => (litM ("every".data) t).bind
        (fun r => litM ("evening".data) (dropSpaces r))) ds (' ' :: "hours".data)
      hds
      (by
        show (litM ("every".data)
            ('e' :: 'v' :: 'e' :: 'r' :: 'y' ::
              (' ' :: (ds ++ ' ' :: "hours".data)))).bind
          (fun r => litM ("evening".data) (dropSpaces r)) = none
        apply everyInner_word_none
        rw [hdropds, hshape]
        exact litM_head_ne 'e' _ d0 _
          (digit_ne d0 'e' (hds d0 (by rw [hshape]; simp)) (by decide)))
      (everyInner_none_of_litM _ _ (litM_every_second 'r' _ (by decide)))
      (fun c cs hc => everyInner_head_ne _ c cs hc)
    rw [show scanFor (fun t => (litM ("every".data) t).bind
        (fun r => litM ("evening".data) (dropSpaces r))) (' ' :: "hours".data) =
        none from by decide] at h
    simp only [testEveryWord, hlow, hsplit, h, Option.isSome_none]
  have hevn : scanFor matchEveryNAt
      ((lowerStr ("every " ++ String.mk ds ++ " hours")).data) = some ds := by
    rw [hlow]
    apply scanFor_cons_some
    show matchEveryNAt ('e' :: 'v' :: 'e' :: 'r' :: 'y' ::
      (' ' :: (ds ++ ' ' :: "hours".data))) = some ds
    unfold matchEveryNAt
    rw [litM_every_exact, Option.some_bind, hdropds,
      show digits1 (ds ++ ' ' :: "hours".data) =
        some (ds, ' ' :: "hours".data) from by
      rw [hshape]
      exact digits1_run d0 ds0 (hds d0 (by rw [hshape]; simp))
        (fun c hc => hds c (by rw [hshape]; simp [hc])) ' ' (by decide) _,
      Option.some_bind]
    rfl
  simp only [parseWhen, hcron, hday, hhour, hmorn, heve, hevn,
    Bool.false_eq_true, if_false, ite_false]

/-- C5.  `parseWhen` (total by construction — it never raises) maps
each recognized form as specified: a raw 5-field cron string is
returned as-is (trimmed); `"every day at 9am"` → `0 9 * * *`;
`"every hour"` / `"every morning"` / `"every evening"` → their fixed
crons; `"every N hours"` → `0 */N * * *` for every nonempty digit
string `N`; `"every weekday at H"` → the weekday-restricted cron;
`"in N seconds|minutes|hours|days"` at `now` → the instant
`now + N·unit` for every nonempty digit string `N`; and any input on
which none of the matchers fires and generic date parsing fails yields
`now + 60s`. -/
theorem claim_C5 :
    (∀ (dp : String → Option Int) (now : Int) (s : String),
        cronTest (jsTrim s).data = true →
        parseWhen dp now s = .cron (jsTrim s))
    ∧ (∀ (dp : String → Option Int) (now : Int),
        parseWhen dp now "every day at 9am" = .cron "0 9 * * *")
    ∧ (∀ (dp : String → Option Int) (now : Int),
        parseWhen dp now "every hour" = .cron "0 * * * *")
    ∧ (∀ (dp : String → Option Int) (now : Int),
        parseWhen dp now "every morning" = .cron "0 7 * * *")
    ∧ (∀ (dp : String → Option Int) (now : Int),
        parseWhen dp now "every evening" = .cron "0 18 * * *")
    ∧ (∀ (dp : String → Option Int) (now : Int) (ds : List Char),
        ds ≠ [] → (∀ c ∈ ds, c.isDigit = true) →
        parseWhen dp now ("every " ++ String.mk ds ++ " hours") =
          .cron ("0 */" ++ String.mk ds ++ " * * *"))
    ∧ (∀ (dp : String → Option Int) (now : Int),
        parseWhen dp now "every weekday at 9am" = .cron "0 9 * * 1-5")
    ∧ (∀ (dp : String → Option Int) (now : Int) (ds : List Char),
        ds ≠ [] → (∀ c ∈ ds, c.isDigit = true) →
        parseWhen dp now ("in " ++ String.mk ds ++ " seconds") =
          .instant (now + (digitsVal ds : Int) * 1000))
    ∧ (∀ (dp : String → Option Int) (now : Int) (ds : List Char),
        ds ≠ [] → (∀ c ∈ ds, c.isDigit = true) →
        parseWhen dp now ("in " ++ String.mk ds ++ " minutes") =
          .instant (now + (digitsVal ds : Int) * 60000))
    ∧ (∀ (dp : String → Option Int) (now : Int) (ds : List Char),
        ds ≠ [] → (∀ c ∈ ds, c.isDigit = true) →
        parseWhen dp now ("in " ++ String.mk ds ++ " hours") =
          .instant (now + (digitsVal ds : Int) * 3600000))
    ∧ (∀ (dp : String → Option Int) (now : Int) (ds : List Char),
        ds ≠ [] → (∀ c ∈ ds, c.isDigit = true) →
        parseWhen dp now ("in " ++ String.mk ds ++ " days") =
          .instant (now + (digitsVal ds : Int) * 86400000))
    ∧ (∀ (dp : String → Option Int) (now : Int) (s : String),
        cronTest (jsTrim s).data = false →
        scanFor (matchDailyAt ("day".data)) ((lowerStr s).data) = none →
        testEveryWord ("hour".data) ((lowerStr s).data) = false →
        testEveryWord ("morning".data) ((lowerStr s).data) = false →
        testEveryWord ("evening".data) ((lowerStr s).data) = false →
        scanFor matchEveryNAt ((lowerStr s).data) = none →
        scanFor (matchDailyAt ("weekday".data)) ((lowerStr s).data) = none →
        scanFor matchRelAt ((lowerStr s).data) = none →
        dp s = none →
        parseWhen dp now s = .instant (now + 60000)) := by
  refine ⟨?_, ?_, ?_, ?_, ?_, ?_, ?_, ?_, ?_, ?_, ?_, ?_⟩
  · intro dp now s hcron
    simp only [parseWhen, hcron, if_true, ite_true]
  · intro dp now
    rfl
  · intro dp now
    rfl
  · intro dp now
    rfl
  · intro dp now
    rfl
  · intro dp now ds hne hds
    exact parseWhen_everyN_hours dp now ds hne hds
  · intro dp now
    rfl
  · intro dp now ds hne hds
    exact parseWhen_in_seconds dp now ds hne hds
  · intro dp now ds hne hds
    exact parseWhen_in_minutes dp now ds hne hds
  · intro dp now ds hne hds
    exact parseWhen_in_hours dp now ds hne hds
  · intro dp now ds hne hds
    exact parseWhen_in_days dp now ds hne hds
  · intro dp now s h1 h2 h3 h4 h5 h6 h7 h8 h9
    simp only [parseWhen, h1, h2, h3, h4, h5, h6, h7, h8, h9,
      Bool.false_eq_true, if_false, ite_false]

theorem claim_C5_witness :
    cronTest (jsTrim "  30 18 * * 1-5 ").data = true
    ∧ parseWhen (fun _ => none) 1000 "  30 18 * * 1-5 " =
        When.cron (jsTrim "  30 18 * * 1-5 ")
    ∧ (['5'] ≠ [] ∧ ∀ c ∈ ['5'], c.isDigit = true)
    ∧ parseWhen (fun _ => none) 1000 ("in " ++ String.mk ['5'] ++ " minutes") =
        When.instant (1000 + (digitsVal ['5'] : Int) * 60000)
    ∧ parseWhen (fun _ => none) 1000
        ("every " ++ String.mk ['1', '2'] ++ " hours") =
        When.cron ("0 */" ++ String.mk ['1', '2'] ++ " * * *")
    ∧ scanFor matchRelAt ((lowerStr "gibberish").data) = none
    ∧ parseWhen (fun _ => none) 1000 "gibberish" =
        When.instant (1000 + 60000) := by
  obtain ⟨hA, _, _, _, _, hN, _, _, hM, _, _, hL⟩ := claim_C5
  exact ⟨by decide,
    hA (fun _ => none) 1000 "  30 18 * * 1-5 " (by decide),
    ⟨by decide, by decide⟩,
    hM (fun _ => none) 1000 ['5'] (by decide) (by decide),
    hN (fun _ => none) 1000 ['1', '2'] (by decide) (by decide),
    by decide,
    hL (fun _ => none) 1000 "gibberish" (by decide) (by decide) (by decide)
      (by decide) (by decide) (by decide) (by decide) (by decide) rfl⟩

lemma isPrefixOf_false_head (tag : List Char) (t' : List Char) (c : Char)
    (rest : List Char) (htag : tag = btk :: t') (hc : c ≠ btk) :
    tag.isPrefixOf (c :: rest) = false := by
  subst htag
  simp only [List.isPrefixOf_cons₂]
  have : (btk == c) = false := beq_eq_false_iff_ne.mpr (fun e => hc e.symm)
  simp [this]

lemma openScan_cons_noMatch (tag : List Char) (c : Char) (rest : List Char)
    (hno : tag.isPrefixOf (c :: rest) = false) :
    openScan tag (c :: rest) =
      (openScan tag rest).map (fun p => (c :: p.1, p.2)) := by
  simp only [openScan, hno, Bool.false_eq_true, if_false, ite_false]

lemma openScan_skip_NB (tag : List Char) (t' b rest : List Char)
    (htag : tag = btk :: t') (hb : NB b) :
    openScan tag (b ++ rest) =
      (openScan tag rest).map (fun p => (b ++ p.1, p.2)) := by
  induction b with
  | nil =>
    cases h : openScan tag rest with
    | none => simp [h]
    | some p => simp [h]
  | cons c b ih =>
    have hc : c ≠ btk := hb c (by simp)
    have hb2 : NB b := fun d hd => hb d (by simp [hd])
    rw [List.cons_append,
      openScan_cons_noMatch tag c (b ++ rest)
        (isPrefixOf_false_head tag t' c (b ++ rest) htag hc),
      ih hb2]
    cases h : openScan tag rest with
    | none => simp
    | some p => simp

lemma openScan_hit (t' rest : List Char) :
    openScan (btk :: t') ((btk :: t') ++ '\n' :: rest) = some ([], rest) := by
  have hpre : (btk :: t').isPrefixOf (btk :: (t' ++ '\n' :: rest)) = true := by
    apply List.isPrefixOf_iff_prefix.mpr
    rw [show btk :: (t' ++ '\n' :: rest) = (btk :: t') ++ '\n' :: rest from rfl]
    exact List.prefix_append _ _
  have hdrop : (btk :: (t' ++ '\n' :: rest)).drop (btk :: t').length =
      '\n' :: rest := by
    simp only [List.length_cons, List.drop_succ_cons]
    exact List.drop_left t' ('\n' :: rest)
  simp only [List.cons_append, openScan, List.append_eq, hpre, if_true,
    ite_true, hdrop]

lemma closeFence_through (b rest : List Char) (hb : NB b) :
    closeFence (b ++ '\n' :: btk :: btk :: btk :: rest) = some (b, rest) := by
  induction b with
  | nil =>
    show closeFence ('\n' :: btk :: btk :: btk :: rest) = some ([], rest)
    have hp : ("```".data).isPrefixOf (btk :: btk :: btk :: rest) = true := by
      rw [show ("```".data) = [btk, btk, btk] from by decide]
      simp [List.isPrefixOf]
    simp [closeFence, hp]
  | cons c b ih =>
    have hc : c ≠ btk := hb c (by simp)
    have hb2 : NB b := fun d hd => hb d (by simp [hd])
    have h3 : ("```".data).isPrefixOf
        (c :: (b ++ '\n' :: btk :: btk :: btk :: rest)) = false :=
      isPrefixOf_false_head _ ("``".data) c _ (by decide) hc
    have h1 : ("```".data).isPrefixOf
        (b ++ '\n' :: btk :: btk :: btk :: rest) = false := by
      cases b with
      | nil => rfl
      | cons d b2 =>
        exact isPrefixOf_false_head _ ("``".data) d _ (by decide)
          (hb d (by simp))
    rw [List.cons_append]
    simp only [closeFence, h1, h3, Bool.and_false, Bool.false_eq_true, if_false,
      ite_false, ih hb2]
    rfl

set_option maxRecDepth 8000 in
/-- C6 (counterexample to the claim as stated).  A malformed schedule
block is dropped from the parsed directives but is NOT stripped from
the display text: the `replace` sits after `JSON.parse` inside the same
`try`, so a parse failure skips the strip and the raw block remains
visible in the returned text. -/
theorem claim_C6_counterexample :
    (fun _ => (none : Option Json)) "not json" = none
    ∧ (parseResponse (fun _ => none) "Hi\n```schedule\nnot json\n```\nBye").sched
        = none
    ∧ (parseResponse (fun _ => none) "Hi\n```schedule\nnot json\n```\nBye").text
        = "Hi\n```schedule\nnot json\n```\nBye"
    ∧ containsSub ("```schedule".data)
        ((parseResponse (fun _ => none)
          "Hi\n```schedule\nnot json\n```\nBye").text.data) = true :=
  ⟨rfl, rfl, by decide, by decide⟩


lemma parseResponse_actions (jp : String → Option Json) (content : String) :
    (parseResponse jp content).actions =
      (extractAll ("```action".data) content.data).1.filterMap (fun b =>
        match jp (String.mk b) with
        | some j => if truthyOpt (jGet j "tool") then some j else none
        | none => none) := rfl

lemma parseResponse_sched_of (jp : String → Option Json) (content : String)
    (body pre suf : List Char) (j : Json)
    (hf : findFence ("```schedule".data) content.data = some (body, pre, suf))
    (hj : jp (String.mk body) = some j) :
    (parseResponse jp content).sched = some j := by
  simp only [parseResponse, hf, hj]

lemma parseResponse_pref_none (jp : String → Option Json) (content : String)
    (hf : findFence ("```preference".data) content.data = none) :
    (parseResponse jp content).pref = none := by
  simp only [parseResponse, hf]

lemma parseResponse_text_of (jp : String → Option Json) (content : String)
    (blocks : List (List Char)) (t1 : List Char)
    (body pre suf body2 pre2 suf2 : List Char) (j : Json)
    (hact : extractAll ("```action".data) content.data = (blocks, t1))
    (hsch : findFence ("```schedule".data) content.data = some (body, pre, suf))
    (hj : jp (String.mk body) = some j)
    (hsch2 : findFence ("```schedule".data) (trimChars t1) =
      some (body2, pre2, suf2))
    (hpref : findFence ("```preference".data) content.data = none) :
    (parseResponse jp content).text =
      (if (String.mk (trimChars (pre2 ++ suf2))) == "" then "Done!"
       else String.mk (trimChars (pre2 ++ suf2))) := by
  simp only [parseResponse, hact, hsch, hj, hsch2, hpref]

set_option maxRecDepth 8000 in
/-- C6 (amended).  On a completion text mixing prose, a malformed
action block, a well-formed action block and a well-formed schedule
block: the malformed block is dropped individually — parsing of the
remaining blocks is unaffected — every well-formed action directive is
returned, the (single) schedule directive is returned and no preference
is, and the display text is the prose with all action blocks (including
the malformed one) and the successfully-parsed schedule block stripped.
(A malformed schedule or preference block would remain in the display
text — see the counterexample.) -/
theorem claim_C6 (jp : String → Option Json) (j2 j3 : Json)
    (h1 : jp actBad = none)
    (h2 : jp actGood = some j2)
    (h2t : truthyOpt (jGet j2 "tool") = true)
    (h3 : jp schedBody = some j3) :
    (parseResponse jp contentC6).actions = [j2]
    ∧ (parseResponse jp contentC6).sched = some j3
    ∧ (parseResponse jp contentC6).pref = none
    ∧ (parseResponse jp contentC6).text = "Intro\n\nmid\n\nmid2\n\ntail" := by
  have eact : extractAll ("```action".data) contentC6.data =
      ([actBad.data, actGood.data],
       ("Intro\n\nmid\n\nmid2\n" ++ fenceBlock "schedule" schedBody
         ++ "\ntail").data) := by decide
  have esch : findFence ("```schedule".data) contentC6.data =
      some (schedBody.data,
        ("Intro\n" ++ fenceBlock "action" actBad ++ "\nmid\n"
          ++ fenceBlock "action" actGood ++ "\nmid2\n").data,
        ("\ntail").data) := by decide
  have esch2 : findFence ("```schedule".data)
      (trimChars (("Intro\n\nmid\n\nmid2\n" ++ fenceBlock "schedule" schedBody
        ++ "\ntail").data)) =
      some (schedBody.data, ("Intro\n\nmid\n\nmid2\n").data,
        ("\ntail").data) := by decide
  have epref : findFence ("```preference".data) contentC6.data = none := by
    decide
  have h3m : jp (String.mk schedBody.data) = some j3 := h3
  refine ⟨?_, ?_, ?_, ?_⟩
  · rw [parseResponse_actions jp contentC6, eact]
    simp only [List.filterMap_cons]
    rw [show String.mk actBad.data = actBad from rfl, h1]
    rw [show String.mk actGood.data = actGood from rfl, h2]
    simp [h2t]
  · exact parseResponse_sched_of jp contentC6 _ _ _ j3 esch h3m
  · exact parseResponse_pref_none jp contentC6 epref
  · rw [parseResponse_text_of jp contentC6 _ _ _ _ _ _ _ _ j3 eact esch h3m
      esch2 epref]
    decide

theorem claim_C6_witness :
    jpC6 actBad = none
    ∧ jpC6 actGood = some actGoodJson
    ∧ truthyOpt (jGet actGoodJson "tool") = true
    ∧ jpC6 schedBody = some schedBodyJson
    ∧ ((parseResponse jpC6 contentC6).actions = [actGoodJson]
      ∧ (parseResponse jpC6 contentC6).sched = some schedBodyJson
      ∧ (parseResponse jpC6 contentC6).pref = none
      ∧ (parseResponse jpC6 contentC6).text = "Intro\n\nmid\n\nmid2\n\ntail") :=
  ⟨rfl, rfl, rfl, rfl, claim_C6 jpC6 actGoodJson schedBodyJson rfl rfl rfl rfl⟩
